import Mathlib

/-!
Verification of the track0 crawler against its specification.

This file gives a shallow embedding, in Lean, of the parts of the
track0 source code (track/cli.py, track/spider.py, track/mirror.py,
track/parser.py) that the specification claims talk about, and proves
or refutes each claim over that embedding.

Conventions:
* Python runtime values flowing through the rule engine are modelled by
  `PyVal` (None, bool, numbers, str).  Python `bool` is a subclass of
  `int`, hence `PyVal.bool` counts as a number for `isinstance(x,
  numbers.Number)` checks.
* Python exceptions are modelled with `Except`; the distinct exception
  classes that matter (`Redirect`, `AttributeError`, `KeyError`,
  `AssertionError`, `TypeError`, `RuleError`, `InvalidUrl`) appear as
  explicit error constructors.
* External library functions (urlnorm.norm, urllib.parse.urljoin, the
  requests transport) are treated as abstract collaborators: they are
  parameters of the model, constrained only where a claim needs their
  value on concrete inputs.
-/

namespace Track

/-- Decidable equality for `Except`. -/
instance instDecEqExcept {ε α : Type} [DecidableEq ε] [DecidableEq α] :
    DecidableEq (Except ε α) := fun a b =>
  match a, b with
  | .ok x, .ok y =>
    if h : x = y then .isTrue (by rw [h]) else .isFalse (fun hc => h (by injection hc))
  | .error x, .error y =>
    if h : x = y then .isTrue (by rw [h]) else .isFalse (fun hc => h (by injection hc))
  | .ok _, .error _ => .isFalse (fun hc => Except.noConfusion hc)
  | .error _, .ok _ => .isFalse (fun hc => Except.noConfusion hc)

/-- Python numbers (ints and floats) modelled as exact fractions
`num / den`.  Every fraction this model constructs has a positive
denominator (1 or a power of 10); fractions are kept unnormalized so
all arithmetic is kernel-computable. -/
structure PyNum where
  num : Int
  den : Nat
deriving DecidableEq

/-- Numeric literals denote integers (denominator 1). -/
instance (n : Nat) : OfNat PyNum n := ⟨⟨n, 1⟩⟩

/-- Value equality of fractions (cross multiplication; correct for the
positive denominators this model produces). -/
def PyNum.eqv (a b : PyNum) : Bool :=
  a.num * b.den = b.num * a.den

/-- Value order of fractions (cross multiplication). -/
def PyNum.lt (a b : PyNum) : Bool :=
  a.num * b.den < b.num * a.den

/-- Negation. -/
def PyNum.neg (a : PyNum) : PyNum := ⟨-a.num, a.den⟩

/-- Multiplication by a natural number (used for the K/M/G units). -/
def PyNum.mulNat (a : PyNum) (m : Nat) : PyNum := ⟨a.num * m, a.den⟩

/-- Model of the Python values the rule engine manipulates: `None`,
booleans, numbers (ints and floats, modelled as exact fractions) and
strings. -/
inductive PyVal where
  | none
  | bool (b : Bool)
  | num (q : PyNum)
  | str (s : String)
deriving DecidableEq

/-- Python `isinstance(x, numbers.Number)`: true for ints/floats and
also for booleans (bool subclasses int in Python). -/
def PyVal.isNumber : PyVal → Bool
  | .bool _ => true
  | .num _ => true
  | _ => false

/-- Numeric value of a `PyVal` of number class (True == 1, False == 0). -/
def PyVal.asNum : PyVal → PyNum
  | .bool b => if b then 1 else 0
  | .num q => q
  | _ => 0

/-- Python truthiness, `bool(x)`. -/
def PyVal.truthy : PyVal → Bool
  | .none => false
  | .bool b => b
  | .num q => q.num ≠ 0
  | .str s => s ≠ ""

/-- Python `==` between the values that can appear here: numbers (and
booleans) compare numerically, strings compare by content, `None` is
equal only to itself, everything else is unequal. -/
def pyEq (a b : PyVal) : Bool :=
  if a.isNumber && b.isNumber then PyNum.eqv a.asNum b.asNum
  else
    match a, b with
    | .none, .none => true
    | .str x, .str y => x = y
    | _, _ => false

/-- Python `<` for the comparable cases reached by the operator
implementations (two numbers, or two strings compared lexicographically). -/
def pyLt (a b : PyVal) : Bool :=
  if a.isNumber && b.isNumber then PyNum.lt a.asNum b.asNum
  else
    match a, b with
    | .str x, .str y => decide (x < y)
    | _, _ => false

/-- Python `float(s)` on a digit string, integer part. -/
def natOfDigits (l : List Char) : Nat :=
  l.foldl (fun acc c => acc * 10 + (c.toNat - 48)) 0

/-- Parse an optional exponent suffix (after the `e`). -/
def parseExponent (l : List Char) : Option Int :=
  match l with
  | [] => Option.none
  | c :: rest =>
    if c = '+' then
      if rest ≠ [] && rest.all Char.isDigit then some (natOfDigits rest) else Option.none
    else if c = '-' then
      if rest ≠ [] && rest.all Char.isDigit then some (-(natOfDigits rest : Int)) else Option.none
    else
      if l.all Char.isDigit then some (natOfDigits l) else Option.none

/-- Scale a fraction by a (possibly negative) power of ten. -/
def PyNum.scale10 (a : PyNum) (ex : Int) : PyNum :=
  match ex with
  | .ofNat n => ⟨a.num * (10 : Nat) ^ n, a.den⟩
  | .negSucc n => ⟨a.num, a.den * (10 : Nat) ^ (n + 1)⟩

/-- Mantissa-and-rest parsing for `float()`: integer digits, optional
fractional part, optional exponent. -/
def parseUnsignedFloat (l : List Char) : Option PyNum :=
  let intPart := l.takeWhile Char.isDigit
  let rest1 := l.dropWhile Char.isDigit
  let finish : PyNum → List Char → Option PyNum := fun mant rest =>
    match rest with
    | [] => some mant
    | e :: erest =>
      if e = 'e' || e = 'E' then
        (parseExponent erest).map (fun ex => mant.scale10 ex)
      else Option.none
  match rest1 with
  | [] => if intPart = [] then Option.none else some ⟨natOfDigits intPart, 1⟩
  | c :: rest2 =>
    if c = '.' then
      let fracPart := rest2.takeWhile Char.isDigit
      let rest3 := rest2.dropWhile Char.isDigit
      if intPart = [] && fracPart = [] then Option.none
      else
        finish
          ⟨natOfDigits intPart * (10 : Nat) ^ fracPart.length + natOfDigits fracPart,
           (10 : Nat) ^ fracPart.length⟩ rest3
    else finish ⟨natOfDigits intPart, 1⟩ (c :: rest1.drop 1)

/-- Model of Python `float(s)`: optional surrounding spaces, optional
sign, digits with optional fraction and exponent.  Returns `none` where
Python raises `ValueError`. -/
def parseFloat (s : String) : Option PyNum :=
  let l := (s.toList.dropWhile (· = ' ')).reverse.dropWhile (· = ' ') |>.reverse
  match l with
  | '+' :: rest => parseUnsignedFloat rest
  | '-' :: rest => (parseUnsignedFloat rest).map PyNum.neg
  | _ => parseUnsignedFloat l

/-- The magnitude suffixes understood by the rule engine
(cli.py `UNITS`): K, M, G. -/
def unitFactor (c : Char) : Option Nat :=
  if c = 'K' then some 1000
  else if c = 'M' then some (1000 * 1000)
  else if c = 'G' then some (1000 * 1000 * 1000)
  else Option.none

/-- cli.py `OperatorImpl._norm`, the user-value half: when the system
value is numeric, the user string is stripped of a trailing
(case-insensitive) K/M/G unit and converted with `float()`; conversion
failure yields Python `False`. -/
def normNumericUser (user : String) : PyVal :=
  let l := user.toList
  let stripped :=
    match l.getLast? with
    | Option.none => (user, Option.none)
    | some c =>
      if user ≠ "" && (unitFactor c.toUpper).isSome then
        (String.mk (l.dropLast), unitFactor c.toUpper)
      else (user, Option.none)
  match parseFloat stripped.1 with
  | Option.none => .bool false
  | some q =>
    match stripped.2 with
    | some u => .num (q.mulNat u)
    | Option.none => .num q

/-- cli.py `OperatorImpl._norm`: if the system value is a number,
normalize the user string to a number (or `False` on failure);
otherwise both values pass through unchanged. -/
def normPair (sys : PyVal) (user : String) : PyVal × PyVal :=
  if sys.isNumber then (sys, normNumericUser user) else (sys, .str user)

/-- Truth of `x is False or x is None` after the `_same` premapping
(`a = None if a is False else a`). -/
def PyVal.isNoneish : PyVal → Bool
  | .none => true
  | .bool b => !b
  | _ => false

/-- cli.py `OperatorImpl._same`: `False` is first mapped to `None`, then
the values are "the same kind" iff both are `None` or both are not. -/
def OperatorImpl.same (a b : PyVal) : Bool :=
  a.isNoneish = b.isNoneish

/-- A character-class body matcher for fnmatch-style `[...]` sets, with
`a-z` ranges. -/
def classMatches : List Char → Char → Bool
  | a :: '-' :: b :: rest, c =>
    (a ≤ c && c ≤ b) || classMatches rest c
  | a :: rest, c => (a = c) || classMatches rest c
  | [], _ => false

/-- Extract the body of an fnmatch character class: the chars after the
opening bracket, honoring a leading `!` (negation) and a leading `]`
(literal).  Returns `none` when there is no closing bracket, in which
case fnmatch treats the `[` as a literal character. -/
def splitClassBody (l : List Char) : Option (Bool × List Char × List Char) :=
  let step1 :=
    match l with
    | c :: t => if c = '!' then (true, t) else (false, l)
    | [] => (false, l)
  let step2 :=
    match step1.2 with
    | c :: t => if c = ']' then (some c, t) else (Option.none, step1.2)
    | [] => (Option.none, step1.2)
  let idx := step2.2.findIdx? (· = ']')
  match idx with
  | Option.none => Option.none
  | some i =>
    let body :=
      match step2.1 with
      | some c => c :: step2.2.take i
      | Option.none => step2.2.take i
    some (step1.1, body, step2.2.drop (i + 1))

/-- Model of Python `fnmatch.fnmatch(name, pattern)` (POSIX normcase is
the identity): `*` matches any run, `?` any single character, `[...]`
a character class with optional `!` negation. -/
def globMatch (name pat : List Char) : Bool :=
  match pat, name with
  | [], n => n = []
  | '*' :: ps, n =>
    globMatch n ps ||
      (match n with
       | [] => false
       | _ :: ns => globMatch ns ('*' :: ps))
  | '?' :: ps, n =>
    match n with
    | [] => false
    | _ :: ns => globMatch ns ps
  | '[' :: ps, n =>
    match splitClassBody ps with
    | some (neg, body, rest) =>
      match n with
      | [] => false
      | c :: ns => (classMatches body c != neg) && globMatch ns rest
    | Option.none =>
      match n with
      | [] => false
      | c :: ns => (c = '[') && globMatch ns ps
  | p :: ps, n =>
    match n with
    | [] => false
    | c :: ns => (c = p) && globMatch ns ps
termination_by (name.length, pat.length)

/-- fnmatch on strings. -/
def fnmatch (name pat : String) : Bool :=
  globMatch name.toList pat.toList

/-- cli.py `OperatorImpl.truth` (the empty operator). -/
def OperatorImpl.truth (sys : PyVal) : Bool :=
  sys.truthy

/-- cli.py `OperatorImpl.equality`: two strings go through fnmatch;
otherwise the pair is normalized and compared, guarded by `_same`.
The user value always arrives as a string (the rule literal). -/
def OperatorImpl.equality (sys : PyVal) (user : String) : Bool :=
  match sys with
  | .str s => fnmatch s user
  | _ =>
    let p := normPair sys user
    OperatorImpl.same p.1 p.2 && pyEq p.1 p.2

/-- cli.py `OperatorImpl.smaller`. -/
def OperatorImpl.smaller (sys : PyVal) (user : String) : Bool :=
  let p := normPair sys user
  OperatorImpl.same p.1 p.2 && pyLt p.1 p.2

/-- cli.py `OperatorImpl.larger`. -/
def OperatorImpl.larger (sys : PyVal) (user : String) : Bool :=
  let p := normPair sys user
  OperatorImpl.same p.1 p.2 && pyLt p.2 p.1

/-- cli.py `OperatorImpl.smaller_or_equal`. -/
def OperatorImpl.smaller_or_equal (sys : PyVal) (user : String) : Bool :=
  let p := normPair sys user
  OperatorImpl.same p.1 p.2 && (pyLt p.1 p.2 || pyEq p.1 p.2)

/-- cli.py `OperatorImpl.larger_or_equal`. -/
def OperatorImpl.larger_or_equal (sys : PyVal) (user : String) : Bool :=
  let p := normPair sys user
  OperatorImpl.same p.1 p.2 && (pyLt p.2 p.1 || pyEq p.1 p.2)

/-- cli.py `Operators`: the operator token table.  Note: the source
table has no entry for `!=` (and `OperatorImpl` has no `inequality`
method), although tests/test_cli.py calls `OperatorImpl.inequality`. -/
def Operators (op : String) : Option (PyVal → String → Bool) :=
  if op = "" then some (fun s _ => OperatorImpl.truth s)
  else if op = "=" then some OperatorImpl.equality
  else if op = "<" then some OperatorImpl.smaller
  else if op = ">" then some OperatorImpl.larger
  else if op = "<=" then some OperatorImpl.smaller_or_equal
  else if op = ">=" then some OperatorImpl.larger_or_equal
  else Option.none

/-- cli.py `CLIRules._parse_rule` operator characters.  The source
tuple is `('<', '>', '=', '~')`: it does NOT contain `!`, although the
spec grammar (`[<>!=~]`) and the tests (OperatorImpl.inequality) both
expect `!` to be an operator character. -/
def opChars : List Char := ['<', '>', '=', '~']

/-- The test names registered in cli.py `AvailableTests` for which
`CLIRules.get_test` returns a function (every listed name resolves to
a `TestImpl` static method after `-` to `_` replacement). -/
def registeredTests : List String :=
  ["", "depth", "domain-depth", "original-domain", "same-domain", "down",
   "path-level", "path-distance", "path-distance-to-original", "url",
   "protocol", "domain", "port", "path", "filename", "extension",
   "querystring", "fragment", "content-type", "size", "content", "tag",
   "requisite"]

/-- The result of cli.py `CLIRules._parse_rule`: the 4-tuple
`((action, is_stop_action), test, op, value)`, with the test kept by
name. -/
structure ParsedRule where
  action : Bool
  is_stop : Bool
  test : String
  op : String
  value : String
deriving DecidableEq

/-- Errors out of `_parse_rule`: `RuleError` for the two explicit
raises, `IndexError` for `stack[0]` on an empty rule string. -/
inductive RuleParseErr where
  | indexError
  | ruleError
deriving DecidableEq

/-- cli.py `CLIRules._parse_rule`: pop the action sign (`+`/`-`),
detect a doubled sign (hard rule), take the test name as the run of
characters outside `opChars`, reject unregistered test names, take the
operator as the run of `opChars` characters, keep the rest as value. -/
def parseRule (rule : String) : Except RuleParseErr ParsedRule :=
  match rule.toList with
  | [] => .error .indexError
  | c :: rest =>
    if c ≠ '+' && c ≠ '-' then .error .ruleError
    else
      let popped :=
        match rest with
        | d :: rest2 => if d = c then (true, rest2) else (false, rest)
        | [] => (false, rest)
      let testName := String.mk (popped.2.takeWhile (fun ch => ch ∉ opChars))
      let afterTest := popped.2.dropWhile (fun ch => ch ∉ opChars)
      if testName ∉ registeredTests then .error .ruleError
      else
        let op := String.mk (afterTest.takeWhile (· ∈ opChars))
        let value := String.mk (afterTest.dropWhile (· ∈ opChars))
        .ok ⟨c = '+', popped.1, testName, op, value⟩

/-- The slice of a spider `Link` that the rule tests exercised by the
claims read: its canonical url, the canonical url of the link it was
discovered on (`previous`), and the `inline` flag from its `info`
mapping. -/
structure CLink where
  url : String
  previousUrl : Option String
  inline : Bool
deriving DecidableEq

/-- The `ctx` mapping passed to two-argument tests: `ctx['spider']`
exposes the spider, of which `requisite` reads
`spider.mirror.encountered_urls` (keys). -/
structure RuleCtx where
  encountered : List String

/-- Exceptions a test function can raise: the `Redirect` signal, or an
`AttributeError` (see the `tag` test). -/
inductive TestErr where
  | redirect
  | attributeError
deriving DecidableEq

/-- A test as run by the rule engine: a function of the link and the
ctx mapping. -/
def TestFun : Type := CLink → RuleCtx → Except TestErr PyVal

/-- cli.py `TestImpl.default`: the test behind a bare `+`/`-` rule;
always `True`. -/
def TestImpl.default : TestFun := fun _ _ => .ok (.bool true)

/-- cli.py `TestImpl.requisite`: `True` iff the link is flagged
`inline`, has a `previous` link, and that previous link's canonical
url is among the mirror's encountered urls. -/
def TestImpl.requisite : TestFun := fun link ctx =>
  if !link.inline then .ok (.bool false)
  else
    match link.previousUrl with
    | Option.none => .ok (.bool false)
    | some pu =>
      if pu ∉ ctx.encountered then .ok (.bool false)
      else .ok (.bool true)

/-- A parsed rule as consumed by `_apply_rules`: the action pair plus
the resolved test function, operator token and value literal. -/
structure EvalRule where
  action : Bool
  is_stop : Bool
  test : TestFun
  op : String
  value : String

/-- Errors escaping a single rule evaluation: the `Redirect` signal
(caught by `_apply_rules`), an `AttributeError` from the test, or a
`KeyError` from the `Operators[op]` lookup (both uncaught). -/
inductive RunErr where
  | redirect
  | attributeError
  | keyError
deriving DecidableEq

/-- cli.py `CLIRules._run_test`: run the rule's test on the link (and
ctx), then apply the operator to the test result and the rule value. -/
def runTest (r : EvalRule) (link : CLink) (ctx : RuleCtx) : Except RunErr Bool :=
  match r.test link ctx with
  | .error .redirect => .error .redirect
  | .error .attributeError => .error .attributeError
  | .ok v =>
    match Operators r.op with
    | Option.none => .error .keyError
    | some f => .ok (f v r.value)

/-- cli.py `CLIRules._apply_rules`, inner loop: fold the rules over the
running result.  A passing rule overwrites the result with its action;
a passing hard (`++`/`--`) rule stops; a `Redirect` signal sets the
result to `True` and moves on; other exceptions propagate. -/
def applyRulesAux (link : CLink) (ctx : RuleCtx) :
    List EvalRule → Bool → Except RunErr Bool
  | [], result => .ok result
  | r :: rest, result =>
    match runTest r link ctx with
    | .ok true => if r.is_stop then .ok r.action else applyRulesAux link ctx rest r.action
    | .ok false => applyRulesAux link ctx rest result
    | .error .redirect => applyRulesAux link ctx rest true
    | .error e => .error e

/-- cli.py `CLIRules._apply_rules`: run the rules left to right starting
from `rule_default = False`. -/
def applyRules (rules : List EvalRule) (link : CLink) (ctx : RuleCtx) :
    Except RunErr Bool :=
  applyRulesAux link ctx rules false

/-- Whether a rule's test-comparison passes (on the error-free fragment
used by the last-match-wins reformulation). -/
def rulePasses (link : CLink) (ctx : RuleCtx) (r : EvalRule) : Bool :=
  match runTest r link ctx with
  | .ok b => b
  | .error _ => false

/-- The rules actually examined by evaluation: everything up to and
including the first passing hard rule. -/
def activeRules (link : CLink) (ctx : RuleCtx) : List EvalRule → List EvalRule
  | [] => []
  | r :: rest =>
    if rulePasses link ctx r && r.is_stop then [r]
    else r :: activeRules link ctx rest

/-- Spec reformulation of rule-list evaluation (last-match-wins): the
result is the action of the last passing rule among the active rules,
or the default when none passes. -/
def lastMatchFrom (link : CLink) (ctx : RuleCtx) (dflt : Bool)
    (rules : List EvalRule) : Bool :=
  match ((activeRules link ctx rules).filter (rulePasses link ctx)).getLast? with
  | some r => r.action
  | Option.none => dflt

/-- Spec reformulation, with the pipeline default `False`. -/
def lastMatchEval (link : CLink) (ctx : RuleCtx) (rules : List EvalRule) : Bool :=
  lastMatchFrom link ctx false rules

/-- The concrete link of the C1 scenario: an inline (requisite) asset
discovered on a page that the mirror has encountered (saved). -/
def c1Link : CLink :=
  ⟨"http://example.org/style.css", some "http://example.org/", true⟩

/-- The ctx of the C1 scenario. -/
def c1Ctx : RuleCtx := ⟨["http://example.org/"]⟩

/-- Python `s.startswith(pre)`, computed on the character list (the
byte-position based `String.startsWith` does not kernel-reduce). -/
def strStartsWith (s pre : String) : Bool :=
  pre.toList.isPrefixOf s.toList

/-- Python `s[n:]`, computed on the character list. -/
def strDrop (s : String) (n : Nat) : String :=
  String.mk (s.toList.drop n)

/-- urllib.parse.urldefrag on the normalized absolute urls produced by
urlnorm: split at the first `#`; the fragment is everything after it
(empty when there is no `#`). -/
def urldefrag (s : String) : String × String :=
  let l := s.toList
  match l.findIdx? (· = '#') with
  | Option.none => (s, "")
  | some i => (String.mk (l.take i), String.mk (l.drop (i + 1)))

/-- The `lossy_url_data` dict of a spider `Link`: optional `fragment`
and `protocol` entries. -/
structure LossyUrlData where
  fragment : Option String
  protocol : Option String
deriving DecidableEq

/-- The url-related state a spider `Link` computes in `__init__`. -/
structure LinkUrlData where
  original_url : String
  url : String
  lossy_url_data : LossyUrlData
deriving DecidableEq

/-- spider.py `Link.__init__`, after `urlnorm.norm`: strip the
fragment from the canonical url and record it in `lossy_url_data`;
for an https url fold the scheme to http for comparison identity and
REASSIGN `lossy_url_data = dict(protocol='https')` — the reassignment
(rather than an update) is the code as written, and it discards the
fragment entry. -/
def linkUrlData (normed : String) : LinkUrlData :=
  let d := urldefrag normed
  if strStartsWith d.1 "https:" then
    ⟨normed, "http" ++ strDrop d.1 5, ⟨Option.none, some "https"⟩⟩
  else
    ⟨normed, d.1, ⟨some d.2, Option.none⟩⟩

/-- The attribute names defined on spider.py `Link` objects: the
instance attributes assigned in `__init__` and `set_previous`, plus the
class-level properties and methods.  `Link` stores its discovery
metadata under `info`; no `extra` attribute exists anywhere on it. -/
def linkAttributeNames : List String :=
  ["original_url", "lossy_url_data", "url", "previous", "root", "depth",
   "domain_depth", "info", "response", "exception", "retries",
   "source", "set_previous", "history", "parsed", "resolve", "retry"]

/-- Python attribute lookup on a spider `Link`: succeeds exactly for
the names `Link` defines, raising `AttributeError` otherwise. -/
def linkGetattr (name : String) : Except TestErr Unit :=
  if name ∈ linkAttributeNames then .ok () else .error .attributeError

/-- cli.py (and tests.py) `TestImpl.tag`: evaluates
`link.extra.get('tag', '')`.  The attribute lookup of `extra` is
performed on the link before anything else. -/
def TestImpl.tag : TestFun := fun _ _ =>
  match linkGetattr "extra" with
  | .error e => .error e
  | .ok _ => .ok (.str "")

/-! ## Mirror (track/mirror.py) -/

/-- The keyword-argument metadata bag attached to discovered links
(`**info` / `**options`): the recognized fields. -/
structure LinkInfo where
  source : Option String
  inline : Bool
  do_not_follow : Bool
  tag : Option String
deriving DecidableEq

/-- The `info` bag of a user-added seed (`source='user'`). -/
def userInfo : LinkInfo := ⟨some "user", false, false, Option.none⟩

/-- Association-list lookup with Python-dict key semantics. -/
def lookupA {β : Type} : List (String × β) → String → Option β
  | [], _ => Option.none
  | (k2, v) :: rest, k => if k2 = k then some v else lookupA rest k

/-- Association-list insertion with Python-dict semantics: replace the
value of an existing key in place, append a new key. -/
def insertA {β : Type} : List (String × β) → String → β → List (String × β)
  | [], k, v => [(k, v)]
  | (k2, v2) :: rest, k, v =>
    if k2 = k then (k2, v) :: rest else (k2, v2) :: insertA rest k v

/-- mirror.py `url_info` record for one url (the fields the claims
use: the mimetype and the captured outgoing link list). -/
structure UrlInfo where
  mimetype : String
  links : List (String × LinkInfo)
deriving DecidableEq

/-- The two content parser kinds. -/
inductive ParserKind where
  | html
  | css
deriving DecidableEq

/-- parser.py `get_parser_for_mimetype`: only `text/html` and
`text/css` have parsers. -/
def get_parser_for_mimetype (m : String) : Option ParserKind :=
  if m = "text/html" then some .html
  else if m = "text/css" then some .css
  else Option.none

/-- The Python exceptions the mirror and spider models can raise. -/
inductive PyErr where
  | attributeError
  | keyError
  | assertionError
  | typeError
  | invalidUrl
deriving DecidableEq

/-- The state of a `Mirror` (persisted maps, per-run maps, the files
written under the mirror directory, and the two behaviour flags). -/
structure MirrorState where
  stored_urls : List (String × List String)
  url_info : List (String × UrlInfo)
  encountered_urls : List (String × String)
  redirects : List (String × Nat × String)
  url_usage : List (String × List String)
  files : List (String × String)
  write_at_once : Bool
  convert_links : Bool
deriving DecidableEq

/-- mirror.py `Mirror._insert_into_url_usage`: register `url` as a
referrer of every link target (sets modelled as deduplicated lists). -/
def insertIntoUrlUsage (usage : List (String × List String)) (url : String)
    (links : List (String × LinkInfo)) : List (String × List String) :=
  links.foldl
    (fun us li =>
      let cur := (lookupA us li.1).getD []
      insertA us li.1 (if url ∈ cur then cur else cur ++ [url]))
    usage

/-- mirror.py `Mirror._convert_links_in_file`: look up the stored
mimetype for the url; when no parser class handles it, return without
touching the file.  Otherwise the code opens the file and calls
`parsed.replace_links(replace_link)` — no parser class defines a
`replace_links` method (they define `replace_urls`), so the call
raises `AttributeError` before any byte of any file is modified; the
replacer closure after it is dead code. -/
def convertLinksInFile (m : MirrorState) (file url : String) :
    Except PyErr MirrorState :=
  match lookupA m.url_info url with
  | Option.none => .error .keyError
  | some inf =>
    match get_parser_for_mimetype inf.mimetype with
    | Option.none => .ok m
    | some _ =>
      match lookupA m.files file with
      | _ => .error .attributeError

/-- mirror.py `Mirror._convert_links` file selection: with no url every
encountered `(url, filename)` entry; for a given url, that url's own
entry (a `KeyError` if it was not encountered) followed by the entries
of the urls in `url_usage[for_url]` that are also encountered this
run. -/
def filesToProcess (m : MirrorState) (for_url : Option String) :
    Except PyErr (List (String × String)) :=
  match for_url with
  | Option.none => .ok m.encountered_urls
  | some u =>
    match lookupA m.encountered_urls u with
    | Option.none => .error .keyError
    | some f =>
      .ok ((u, f) ::
        ((lookupA m.url_usage u).getD []).filterMap
          (fun r => (lookupA m.encountered_urls r).map (fun rf => (r, rf))))

/-- mirror.py `Mirror._convert_links`: no-op when link conversion is
disabled; otherwise process each selected `(url, filename)` pair with
`_convert_links_in_file`. -/
def convertLinks (m : MirrorState) (for_url : Option String) :
    Except PyErr MirrorState :=
  if !m.convert_links then .ok m
  else
    match filesToProcess m for_url with
    | .error e => .error e
    | .ok files => files.foldlM (fun st p => convertLinksInFile st p.2 p.1) m

/-- The C4 scenario: pages A and C link to B, D links elsewhere; all
four are stored and encountered this run as html, with `url_usage`
built exactly as `add()` builds it (one `_insert_into_url_usage` call
per added page). -/
def c4State : MirrorState :=
  let la : LinkInfo := ⟨Option.none, false, false, some "a.href"⟩
  let bLinks : List (String × LinkInfo) := [("http://example.org/b", la)]
  let usage :=
    insertIntoUrlUsage
      (insertIntoUrlUsage
        (insertIntoUrlUsage
          (insertIntoUrlUsage [] "http://example.org/a" bLinks)
          "http://example.org/c" bLinks)
        "http://example.org/d" [("http://example.org/x", la)])
      "http://example.org/b" []
  ⟨[("http://example.org/a", ["example.org/a.html"]),
    ("http://example.org/c", ["example.org/c.html"]),
    ("http://example.org/d", ["example.org/d.html"]),
    ("http://example.org/b", ["example.org/b.html"])],
   [("http://example.org/a", ⟨"text/html", bLinks⟩),
    ("http://example.org/c", ⟨"text/html", bLinks⟩),
    ("http://example.org/d", ⟨"text/html", [("http://example.org/x", la)]⟩),
    ("http://example.org/b", ⟨"text/html", []⟩)],
   [("http://example.org/a", "example.org/a.html"),
    ("http://example.org/c", "example.org/c.html"),
    ("http://example.org/d", "example.org/d.html"),
    ("http://example.org/b", "example.org/b.html")],
   [], usage,
   [("example.org/a.html", "<a href=b>"), ("example.org/c.html", "<a href=b>"),
    ("example.org/d.html", "<a href=x>"), ("example.org/b.html", "ok")],
   true, true⟩

/-! ## Spider (track/spider.py)

The crawl loop is modelled as a deterministic transition system.  The
network (`requests` + `Spider.session.resolve_redirects`) is an
abstract collaborator: `SpiderConfig.internet` maps a url to the
outcome of resolving it (connection error, redirect-loop error, or a
response carrying its status, the urls of the redirect-chain hops, and
the `(url, options)` pairs its attached parsers would yield).  The
urlnorm library is likewise abstract (`SpiderConfig.normUrl`), as is
the response-dependent `Mirror.get_filename` derivation.  Each call of
`Link.resolve` from `_process_link` performs one network request; the
rule functions of the scenarios below do not resolve links themselves,
so the per-link response cache of `Link` is unobservable here. -/

/-- spider.py `Link`: the fields `__init__`/`set_previous` assign
that the crawl loop reads (`depth`/`domain_depth`/`root` are derived
and unused by the modelled paths). -/
inductive SLink where
  | mk (original_url : String) (url : String) (lossy : LossyUrlData)
      (previous : Option SLink) (info : LinkInfo) (retries : Nat)

/-- Canonical url of a link. -/
def SLink.url : SLink → String
  | .mk _ u _ _ _ _ => u

/-- Original (pre-defrag) url of a link. -/
def SLink.original_url : SLink → String
  | .mk o _ _ _ _ _ => o

/-- The link this one was discovered on. -/
def SLink.previous : SLink → Option SLink
  | .mk _ _ _ p _ _ => p

/-- The discovery metadata bag. -/
def SLink.info : SLink → LinkInfo
  | .mk _ _ _ _ i _ => i

/-- The retry counter. -/
def SLink.retries : SLink → Nat
  | .mk _ _ _ _ _ r => r

/-- spider.py `Link.source` property: `info.get('source')`. -/
def SLink.source (l : SLink) : Option String :=
  l.info.source

/-- spider.py `Link.retry`: bump the counter and clear the cached
response and exception. -/
def SLink.retry : SLink → SLink
  | .mk o u lo p i r => .mk o u lo p i (r + 1)

/-- The outcome of resolving a url: status code of the first response,
content type, urls of the redirect-chain hop responses in order (final
target last, empty when there was no redirect), the `(url, options)`
pairs of the attached parsers (header links then document links), and
the body. -/
structure SResponse where
  status : Nat
  ctype : String
  redirects : List String
  links : List (String × LinkInfo)
  content : String
deriving DecidableEq

/-- The network-level outcome of `Link.resolve`. -/
inductive NetResult where
  | connError
  | tooManyRedirects
  | resp (r : SResponse)
deriving DecidableEq

/-- The collaborators and rules a spider run is configured with. -/
structure SpiderConfig where
  normUrl : String → Option String
  internet : String → NetResult
  followRule : SLink → Bool
  saveRule : SLink → Bool
  stopRule : SLink → Bool
  skipDownload : SLink → Bool
  getFilename : String → String

/-- spider.py `Link(url, previous=.., **info)`: normalize through
urlnorm (`none` models `InvalidUrl`), then strip the fragment and fold
https via `linkUrlData`; runtime fields start empty. -/
def mkSLink (cfg : SpiderConfig) (raw : String) (previous : Option SLink)
    (info : LinkInfo) : Option SLink :=
  (cfg.normUrl raw).map fun n =>
    let d := linkUrlData n
    .mk d.original_url d.url d.lossy_url_data previous info 0

/-- The events notifications of spider.py `Events` that the claims
observe. -/
inductive SEvent where
  | addedToQueue (url : String)
  | takenByProcessor (url : String)
  | followState (url : String) (state : String)
  | saveState (url : String) (saved : Bool)
  | bailState (url : String) (bail : Bool)
  | completed (url : String)
deriving DecidableEq

/-- The full state of a spider run: the work queue (head = left end of
the deque, `pop()` takes the last element), the known-urls set, the
mirror, the event log, the urls network requests were issued for, and
the urls the follow rule was evaluated on. -/
structure SpiderState where
  queue : List SLink
  known_urls : List String
  mirror : MirrorState
  events : List SEvent
  requests : List String
  followLog : List String

/-- mirror.py `Mirror._create_index`: write an index.html enumerating
the stored urls. -/
def createIndex (m : MirrorState) : MirrorState :=
  let content := m.stored_urls.foldl
    (fun acc p =>
      acc ++ "<a href=\"" ++ p.2.headD "" ++ "\">" ++ p.2.headD "" ++ "</a><br>")
    ""
  { m with files := insertA m.files "index.html" content }

/-- mirror.py `Mirror.add`: write the body under the derived filename
(plus an `.originals` backup when link conversion is on), record
`url_info` (mimetype and the parsers' link list), `encountered_urls`,
`stored_urls`, update the reverse index — and, in write-at-once mode,
run the immediate conversion pass for this url and regenerate the
index. -/
def mirrorAdd (cfg : SpiderConfig) (m : MirrorState) (link : SLink)
    (r : SResponse) : Except PyErr MirrorState :=
  let rel := cfg.getFilename link.url
  let files1 := insertA m.files rel r.content
  let files2 :=
    if m.convert_links then insertA files1 (".originals/" ++ rel) r.content
    else files1
  let storedCur := (lookupA m.stored_urls link.url).getD []
  let m1 : MirrorState :=
    { m with
      files := files2,
      url_info := insertA m.url_info link.url ⟨r.ctype, r.links⟩,
      encountered_urls := insertA m.encountered_urls link.url rel,
      stored_urls := insertA m.stored_urls link.url
        (if rel ∈ storedCur then storedCur else storedCur ++ [rel]),
      url_usage := insertIntoUrlUsage m.url_usage link.url r.links }
  if m1.write_at_once then
    (convertLinks m1 (some link.url)).map createIndex
  else .ok m1

/-- mirror.py `Mirror.encounter_url`: assert the url is stored, then
mark it encountered under one of its stored filenames. -/
def encounterUrl (m : MirrorState) (link : SLink) : Except PyErr MirrorState :=
  match lookupA m.stored_urls link.url with
  | Option.none => .error .assertionError
  | some fs =>
    .ok { m with encountered_urls := insertA m.encountered_urls link.url (fs.headD "") }

/-- mirror.py `Mirror.add_redirect`: record the redirect keyed by the
redirecting url, carrying the status code and the target url. -/
def addRedirect (m : MirrorState) (link target : SLink) (code : Nat) : MirrorState :=
  { m with redirects := insertA m.redirects link.url (code, target.url) }

/-- mirror.py `Mirror.finish`: the end-of-run conversion pass plus the
index regeneration. -/
def mirrorFinish (m : MirrorState) : Except PyErr MirrorState :=
  (convertLinks m Option.none).map createIndex

/-- spider.py `Spider._add`: build a child link (an `InvalidUrl` is
swallowed and the url skipped), refuse urls already in the known set,
otherwise push onto the left end of the queue. -/
def spiderAddInternal (cfg : SpiderConfig) (s : SpiderState)
    (previous : Option SLink) (url : String) (info : LinkInfo) : SpiderState :=
  match mkSLink cfg url previous info with
  | Option.none => s
  | some l =>
    if l.url ∈ s.known_urls then s
    else
      { s with queue := l :: s.queue,
               events := s.events ++ [.addedToQueue l.url] }

/-- spider.py `Spider.add`: build the seed link (previous=None) and
appendleft it to the queue with no duplicate check; `InvalidUrl`
propagates. -/
def spiderAdd (cfg : SpiderConfig) (s : SpiderState) (url : String)
    (info : LinkInfo) : Except PyErr SpiderState :=
  match mkSLink cfg url Option.none info with
  | Option.none => .error .invalidUrl
  | some l => .ok { s with queue := l :: s.queue }

/-- The tail of `_process_link` after the response checks: the save
stage, the known-urls update, the stop-rule check and the link
extraction/enqueue stage.  `r = none` together with `skip = true`
models the `response = False` of the download-skip path (`was304` is
only read when the download was not skipped, as in the source). -/
def processTail (cfg : SpiderConfig) (s : SpiderState) (link : SLink)
    (skip was304 : Bool) (r : Option SResponse) :
    Except PyErr (SpiderState × Option SLink) :=
  let saveStage : Except PyErr (SpiderState × Bool) :=
    if !skip && !was304 then
      if cfg.saveRule link then
        match r with
        | some resp =>
          (mirrorAdd cfg s.mirror link resp).map fun m =>
            ({ s with mirror := m,
                      events := s.events ++ [.saveState link.url true] }, true)
        | Option.none => .error .keyError
      else
        .ok ({ s with events := s.events ++ [.saveState link.url false] }, false)
    else
      (encounterUrl s.mirror link).map fun m => ({ s with mirror := m }, true)
  match saveStage with
  | .error e => .error e
  | .ok (s1, addKnown) =>
    let s2 :=
      if addKnown then { s1 with known_urls := s1.known_urls ++ [link.url] }
      else s1
    if cfg.stopRule link then
      .ok ({ s2 with events := s2.events ++ [.bailState link.url true] }, Option.none)
    else
      let linksE : Except PyErr (List (String × LinkInfo)) :=
        if skip || was304 then
          match lookupA s2.mirror.url_info link.url with
          | Option.none => .error .keyError
          | some inf => .ok inf.links
        else
          match r with
          | some resp => .ok resp.links
          | Option.none => .ok []
      match linksE with
      | .error e => .error e
      | .ok ls =>
        let s3 := ls.foldl (fun st p => spiderAddInternal cfg st (some link) p.1 p.2) s2
        .ok ({ s3 with events := s3.events ++ [.bailState link.url false] }, Option.none)

/-- spider.py `Spider._process_link`: the per-link state machine
(do-not-follow check, duplicate check, follow-rule check with logging,
download-skip check, resolution with retry / redirect / http-error /
304 handling, then the shared tail).  The second component of the
result is the link to requeue (`return True` in the source means
"add this link again"). -/
def processLink (cfg : SpiderConfig) (s : SpiderState) (link : SLink) :
    Except PyErr (SpiderState × Option SLink) :=
  if link.info.do_not_follow then
    .ok ({ s with events := s.events ++ [.followState link.url "skipped-no-download"] },
      Option.none)
  else if link.url ∈ s.known_urls then
    .ok ({ s with events := s.events ++ [.followState link.url "skipped-duplicate"] },
      Option.none)
  else
    let isUser := link.source = some "user"
    let s := if isUser then s else { s with followLog := s.followLog ++ [link.url] }
    if !isUser && !cfg.followRule link then
      .ok ({ s with events := s.events ++ [.followState link.url "skipped-rule-deny"] },
        Option.none)
    else
      let skip := cfg.skipDownload link
      if !skip then
        let s := { s with requests := s.requests ++ [link.url] }
        match cfg.internet link.url with
        | .connError =>
          if link.retries ≤ 5 then
            .ok ({ s with events := s.events ++ [.followState link.url "failed-connect-error"] },
              some link.retry)
          else .ok (s, Option.none)
        | .tooManyRedirects =>
          .ok ({ s with events := s.events ++ [.followState link.url "failed-redirect-error"] },
            Option.none)
        | .resp r =>
          match r.redirects.getLast? with
          | some lastUrl =>
            match mkSLink cfg lastUrl link.previous link.info with
            | Option.none => .error .invalidUrl
            | some redirLink =>
              let s := { s with
                queue := s.queue ++ [redirLink],
                events := s.events ++ [SEvent.addedToQueue link.url] }
              let s := { s with mirror := addRedirect s.mirror link redirLink r.status }
              .ok ({ s with events := s.events ++ [SEvent.followState link.url "failed-redirect"] },
                Option.none)
          | Option.none =>
            if r.status ≥ 400 then
              .ok ({ s with events := s.events ++ [.followState link.url "failed-http-error"] },
                Option.none)
            else
              let was304 := r.status == 304
              let s := { s with events := s.events ++
                [.followState link.url (if was304 then "failed-not-modified" else "success")] }
              processTail cfg s link false was304 (some r)
      else
        let s := { s with events := s.events ++ [.followState link.url "failed-not-expired"] }
        processTail cfg s link true false Option.none

/-- spider.py `Spider.process_one`: pop the right end of the queue,
process the link, and requeue it (appendleft) when asked to. -/
def processOne (cfg : SpiderConfig) (s : SpiderState) : Except PyErr SpiderState :=
  match s.queue.getLast? with
  | Option.none => .ok s
  | some link =>
    let s0 := { s with queue := s.queue.dropLast,
                       events := s.events ++ [.takenByProcessor link.url] }
    match processLink cfg s0 link with
    | .error e => .error e
    | .ok (s1, again) =>
      let s2 := { s1 with events := s1.events ++ [.completed link.url] }
      match again with
      | some l2 =>
        .ok { s2 with queue := l2 :: s2.queue,
                      events := s2.events ++ [.addedToQueue l2.url] }
      | Option.none => .ok s2

/-- spider.py `Spider.loop`: process queue entries until the queue is
empty, then run `Mirror.finish`.  Fuel-indexed; with enough fuel the
fuel never runs out on the scenarios below. -/
def loopFuel (cfg : SpiderConfig) : Nat → SpiderState → Except PyErr SpiderState
  | 0, s => .ok s
  | n + 1, s =>
    if s.queue.isEmpty then
      (mirrorFinish s.mirror).map fun m => { s with mirror := m }
    else
      match processOne cfg s with
      | .error e => .error e
      | .ok s2 => loopFuel cfg n s2

/-- Discovery metadata of a plain `<a href>` link. -/
def aHrefInfo : LinkInfo := ⟨Option.none, false, false, some "a.href"⟩

/-- Discovery metadata with no source (the `source=None` of the
redirect test). -/
def noneSourceInfo : LinkInfo := ⟨Option.none, false, false, Option.none⟩

/-- A fresh mirror in the `--no-link-conversion` configuration (the
conversion pass is disabled so the orthogonal `replace_links` bug of
C4 cannot fire during these runs). -/
def emptyMirror : MirrorState := ⟨[], [], [], [], [], [], true, false⟩

/-- A fresh spider over `emptyMirror`. -/
def emptySpider : SpiderState := ⟨[], [], emptyMirror, [], [], []⟩

/-- Network assumption of the duplicate-suppression claim: every url
resolves to a plain success — no connection failure, no redirect
chain, no error status, no 304. -/
def plainSuccessNet (cfg : SpiderConfig) : Prop :=
  ∀ u, ∃ r, cfg.internet u = .resp r ∧
    r.redirects = [] ∧ r.status < 400 ∧ r.status ≠ 304

/-- Rule assumption: the save rules accept every link. -/
def savesEverything (cfg : SpiderConfig) : Prop :=
  ∀ l, cfg.saveRule l = true

/-- Rule assumption: the download-skip check never skips. -/
def neverSkipsDownload (cfg : SpiderConfig) : Prop :=
  ∀ l, cfg.skipDownload l = false

/-- The at-most-once invariant: no url was requested twice, and every
requested url has completed processing (it is in the known set). -/
def requestInvariant (s : SpiderState) : Prop :=
  s.requests.Nodup ∧ ∀ u ∈ s.requests, u ∈ s.known_urls

/-- The seed url of the C2 scenario. -/
def c2Url : String := "http://example.org/"

/-- The C2 configuration: urlnorm is the identity on the already
canonical scenario urls, the one page links back to itself, every
save passes, nothing is skipped. -/
def c2Cfg : SpiderConfig :=
  ⟨fun s => some s,
   fun u =>
     if u = c2Url then .resp ⟨200, "text/html", [], [(c2Url, aHrefInfo)], "<a>"⟩
     else .connError,
   fun _ => true, fun _ => true, fun _ => false, fun _ => false,
   fun _ => "example.org/index.html"⟩

/-- The seed link of the C2 scenario as `Link()` constructs it. -/
def c2Seed : SLink := .mk c2Url c2Url ⟨some "", Option.none⟩ Option.none userInfo 0

/-- The C2 initial state: the same seed url added twice through
`Spider.add`. -/
def c2InitE : Except PyErr SpiderState :=
  spiderAdd c2Cfg emptySpider c2Url userInfo >>= fun s =>
    spiderAdd c2Cfg s c2Url userInfo

/-- The C2 run. -/
def c2Run : Except PyErr SpiderState := c2InitE >>= loopFuel c2Cfg 12

/-- An all-success network configuration used to discharge the
hypotheses of the general at-most-once statement. -/
def c2WCfg : SpiderConfig :=
  ⟨fun s => some s,
   fun _ => .resp ⟨200, "text/html", [], [], ""⟩,
   fun _ => true, fun _ => true, fun _ => false, fun _ => false,
   fun _ => "example.org/index.html"⟩

/-- A state satisfying the request invariant with one completed
request. -/
def c2WState : SpiderState := ⟨[], [c2Url], emptyMirror, [], [c2Url], []⟩

/-- The three scenario urls of the redirect-collapsing claim. -/
def fooU : String := "http://example.org/foo"

/-- Intermediate hop of the C3 chain. -/
def barU : String := "http://example.org/bar"

/-- Final target of the C3 chain. -/
def bazU : String := "http://example.org/baz"

/-- The C3 configuration: `/foo` answers 302 with the resolved chain
`[bar, baz]`, `/bar` answers 302 towards `/baz`, `/baz` answers
200 `ok`; the follow rule passes everything (and is logged). -/
def c3Cfg : SpiderConfig :=
  ⟨fun s => some s,
   fun u =>
     if u = fooU then .resp ⟨302, "text/html", [barU, bazU], [], ""⟩
     else if u = barU then .resp ⟨302, "text/html", [bazU], [], ""⟩
     else if u = bazU then .resp ⟨200, "text/html", [], [], "ok"⟩
     else .connError,
   fun _ => true, fun _ => true, fun _ => false, fun _ => false,
   fun _ => "example.org/baz.html"⟩

/-- The C3 seed: `/foo` added with `source=None` so the follow rules
run for it (seeds with `source='user'` skip the follow check). -/
def c3InitE : Except PyErr SpiderState :=
  spiderAdd c3Cfg emptySpider fooU noneSourceInfo

/-- The C3 run. -/
def c3Run : Except PyErr SpiderState := c3InitE >>= loopFuel c3Cfg 12

/-- The C3 seed link. -/
def c3FooLink : SLink := .mk fooU fooU ⟨some "", Option.none⟩ Option.none noneSourceInfo 0

/-- The C3 redirect link the spider constructs for the final target. -/
def c3BazLink : SLink := .mk bazU bazU ⟨some "", Option.none⟩ Option.none noneSourceInfo 0

/-- The first response of the C3 chain. -/
def c3FooResp : SResponse := ⟨302, "text/html", [barU, bazU], [], ""⟩

/-- The state `_process_link` leaves behind when the response of the
popped link carries a redirect chain: the link is replaced (at the
back of the queue) by a new link for the final target, the redirect is
recorded in the mirror keyed by the first response's status code, one
request was issued, the url is NOT marked known, and the follow rule
was consulted exactly when the link was not user-supplied. -/
def redirectSuccessor (s : SpiderState) (q : List SLink) (link redirLink : SLink)
    (status : Nat) : SpiderState :=
  { s with
    queue := q ++ [redirLink],
    mirror := { s.mirror with
      redirects := insertA s.mirror.redirects link.url (status, redirLink.url) },
    events := s.events ++
      [.takenByProcessor link.url, .addedToQueue link.url,
       .followState link.url "failed-redirect", .completed link.url],
    requests := s.requests ++ [link.url],
    followLog := s.followLog ++
      (if link.source = some "user" then [] else [link.url]) }

/-! ## Content parsers (track/parser.py)

The tokenizers are translated into consumption-style recursive
functions: every processed character moves from the remaining input
into the `data` of some emitted element, so that the concatenation of
the element data always reproduces the input.  The imperative loops
carry a fuel argument (initialised above the iteration count, the
fuel-exhaustion branches are unreachable for the initial fuel but keep
the partition property trivially).  Python `TypeError`s from
`None in "..."` membership tests at end of input, the tag-soup
`assert`, and the `AttributeError`s of the link/meta handlers are
modelled as `Except` errors.  `urllib.parse.urljoin` stays an abstract
collaborator `uj`. -/

/-- The single-quote character (39). -/
def squoteChr : Char := Char.ofNat 39

/-- The double-quote character (34). -/
def dquoteChr : Char := Char.ofNat 34

/-- The backslash character (92). -/
def backslashChr : Char := Char.ofNat 92

/-- Wrap a string in double quotes. -/
def dq (s : String) : String :=
  String.mk (dquoteChr :: s.toList ++ [dquoteChr])

/-- Replace every occurrence of a character by a string
(Python `str.replace`). -/
def strReplaceChar (s : String) (c : Char) (r : String) : String :=
  String.mk (s.toList.foldr (fun x acc => if x = c then r.toList ++ acc else x :: acc) [])

/-- Whether a string contains a character. -/
def strContainsChar (s : String) (c : Char) : Bool :=
  c ∈ s.toList

/-- Python `str.strip()` whitespace. -/
def pySpace (c : Char) : Bool :=
  c = ' ' || c = '\t' || c = '\n' || c = '\r' || c = Char.ofNat 11 || c = Char.ofNat 12

/-- Python `str.strip()`. -/
def strStrip (s : String) : String :=
  String.mk (((s.toList.dropWhile pySpace).reverse.dropWhile pySpace).reverse)

/-- Python `str.lower()`. -/
def strLower (s : String) : String :=
  String.mk (s.toList.map Char.toLower)

/-- ParserKit `skip_while`: split off the longest prefix of characters
from the set. -/
def spanWhile (set : List Char) : List Char → List Char × List Char
  | [] => ([], [])
  | c :: rest =>
    if c ∈ set then
      let p := spanWhile set rest
      (c :: p.1, p.2)
    else ([], c :: rest)

/-- ParserKit `skip_until` without escape character: split off the
longest prefix of characters outside the stop set. -/
def spanUntil (stops : List Char) : List Char → List Char × List Char
  | [] => ([], [])
  | c :: rest =>
    if c ∈ stops then ([], c :: rest)
    else
      let p := spanUntil stops rest
      (c :: p.1, p.2)

/-- ParserKit `skip_until` with an escape character, faithful to the
source loop (the escape check precedes the quoted check, the character
after an escape is taken verbatim).  Returns the raw consumed
characters, the unescaped result, and the rest (starting at a stop
character, or empty). -/
def skipUntilEsc (stops : List Char) (esc : Char) :
    List Char → Bool → List Char × List Char × List Char
  | [], _ => ([], [], [])
  | c :: rest, quoted =>
    if c = esc then
      let p := skipUntilEsc stops esc rest true
      (c :: p.1, p.2.1, p.2.2)
    else if quoted then
      let p := skipUntilEsc stops esc rest false
      (c :: p.1, c :: p.2.1, p.2.2)
    else if c ∈ stops then ([], [], c :: rest)
    else
      let p := skipUntilEsc stops esc rest false
      (c :: p.1, c :: p.2.1, p.2.2)

/-- An element of a parsed CSS document: an `unknown` slice or a `url`
token (whose `data` keeps the raw slice including quotes and escapes,
and whose `url` holds the unescaped url text). -/
structure CElem where
  typ : String
  data : String
  url : String
deriving DecidableEq

/-- An unknown CSS slice. -/
def cssUnknown (l : List Char) : CElem := ⟨"unknown", String.mk l, ""⟩

/-- A CSS url token. -/
def cssUrl (dataC : List Char) (url : List Char) : CElem :=
  ⟨"url", String.mk dataC, String.mk url⟩

/-- The whitespace characters of ParserKit `skip_whitespace`. -/
def wsChars : List Char := ['\n', '\r', '\t', ' ']

/-- CSSParser comment scanning: the inner `while` advances two
characters at a time until it stands on `*/` (which stays
unconsumed) or input runs out. -/
def cssCommentSkip : List Char → List Char × List Char
  | [] => ([], [])
  | [c] => ([c], [])
  | c :: d :: rest =>
    if c = '*' && d = '/' then ([], c :: d :: rest)
    else
      let p := cssCommentSkip rest
      (c :: d :: p.1, p.2)

/-- One url-ish token read of the CSS parser: after an opening quote
`q` was consumed, read the url (escaped by backslash, stopped by the
quote or a line break), and include a closing quote when present. -/
def cssQuotedUrl (q : Char) (l : List Char) :
    List Char × List Char × List Char :=
  let p := skipUntilEsc [q, '\n', '\r'] backslashChr l false
  match p.2.2 with
  | c :: rest2 =>
    if c = q then (p.1 ++ [c], p.2.1, rest2) else (p.1, p.2.1, p.2.2)
  | [] => (p.1, p.2.1, [])

/-- The comment-skipping head of a CSSParser `_parse` iteration: when
the input starts with slash-star, the comment scan moves characters
into the current element buffer. -/
def cssCommentPhase (buf l : List Char) : List Char × List Char :=
  match l with
  | c :: d :: rest2 =>
    if c = '/' && d = '*' then
      let p := cssCommentSkip rest2
      (buf ++ c :: d :: p.1, p.2)
    else (buf, l)
  | _ => (buf, l)

/-- One iteration of the CSSParser `_parse` loop on a non-empty rest:
either emit elements (with a reset buffer) or extend the buffer;
`.error` models the `TypeError` of the `cur() in` quote test when the
input ends right after `@import`/`url(` plus whitespace. -/
def cssStep (buf l : List Char) : Except Unit (List CElem × List Char × List Char) :=
  let cp := cssCommentPhase buf l
  let buf1 := cp.1
  let l1 := cp.2
  if ("@import".toList).isPrefixOf l1 then
    let wp := spanWhile wsChars (l1.drop 7)
    match wp.2 with
    | [] => .error ()
    | q :: l4 =>
      if q = dquoteChr || q = squoteChr then
        let r := cssQuotedUrl q l4
        .ok ([cssUnknown (buf1 ++ l1.take 7 ++ wp.1), cssUrl (q :: r.1) r.2.1],
             [], r.2.2)
      else .ok ([], buf1 ++ l1.take 7 ++ wp.1, wp.2)
  else if ("url(".toList).isPrefixOf l1 then
    let wp := spanWhile wsChars (l1.drop 4)
    match wp.2 with
    | [] => .error ()
    | q :: l4 =>
      if q = dquoteChr || q = squoteChr then
        let r := cssQuotedUrl q l4
        .ok ([cssUnknown (buf1 ++ l1.take 4 ++ wp.1), cssUrl (q :: r.1) r.2.1],
             [], r.2.2)
      else
        let p := skipUntilEsc [')', '\n', '\r'] backslashChr wp.2 false
        .ok ([cssUnknown (buf1 ++ l1.take 4 ++ wp.1), cssUrl p.1 p.2.1],
             [], p.2.2)
  else
    match l1 with
    | [] => .ok ([], buf1, [])
    | c :: rest => .ok ([], buf1 ++ [c], rest)

/-- CSSParser `_parse` as a fuel-indexed loop over (emitted elements,
current element buffer, rest); the final `switch_element` flushes the
buffer as an unknown element. -/
def cssParseLoop : Nat → List CElem → List Char → List Char →
    Except Unit (List CElem)
  | 0, base, buf, l => .ok (base ++ [cssUnknown (buf ++ l)])
  | fuel + 1, base, buf, l =>
    match l with
    | [] => .ok (base ++ [cssUnknown buf])
    | _ :: _ =>
      match cssStep buf l with
      | .error e => .error e
      | .ok r => cssParseLoop fuel (base ++ r.1) r.2.1 r.2.2

/-- CSSParser `_parse`. -/
def cssParse (s : String) : Except Unit (List CElem) :=
  cssParseLoop (s.toList.length + 2) [] [] s.toList

/-- The three quoting styles of `CSSParser.replace_urls`. -/
inductive CSSEscape where
  | single
  | double
  | noQuote
deriving DecidableEq

/-- How `CSSParser.replace_urls` re-emits a replaced url under each
escape style. -/
def cssQuote (esc : CSSEscape) (u : String) : String :=
  match esc with
  | .single =>
    String.mk (squoteChr ::
      (strReplaceChar u squoteChr (String.mk [backslashChr, squoteChr])).toList
      ++ [squoteChr])
  | .double =>
    String.mk (dquoteChr ::
      (strReplaceChar u dquoteChr (String.mk [backslashChr, dquoteChr])).toList
      ++ [dquoteChr])
  | .noQuote => u

/-- A replacer as handed to `replace_urls`: `none` (and the empty
string) mean "leave the link alone". -/
def Replacer : Type := String → Option String

/-- The no-op replacer of the round-trip claim. -/
def noopReplacer : Replacer := fun _ => Option.none

/-- CSSParser `replace_urls`: substitute each url element whose
replacement is truthy, keep every other slice byte-identical. -/
def cssReplaceUrls (uj : String → String → String) (base : String)
    (esc : CSSEscape) (replacer : Replacer) (s : String) :
    Except Unit String :=
  match cssParse s with
  | .error e => .error e
  | .ok elems =>
    .ok (String.mk (elems.foldl
      (fun acc e =>
        if e.typ = "url" then
          match replacer (uj base e.url) with
          | some u => if u ≠ "" then acc ++ (cssQuote esc u).toList else acc ++ e.data.toList
          | Option.none => acc ++ e.data.toList
        else acc ++ e.data.toList)
      []))

/-- A token element of HTMLTokenizer `_parse` (typ one of unknown,
tag-open, attr-begin, attr-value, tag-open-end, tag-rawtext); `attrs`
is the first-occurrence map from attribute name to the index of its
attr-value token in the element list. -/
structure HElem where
  typ : String := "unknown"
  data : String := ""
  name : String := ""
  attr_name : String := ""
  tag_name : String := ""
  value : String := ""
  attrs : List (String × Nat) := []
deriving DecidableEq

/-- An unknown slice. -/
def unknownElem (d : List Char) : HElem := { data := String.mk d }

/-- A tag-open token (data is the tag name). -/
def tagOpenElem (n : List Char) : HElem :=
  { typ := "tag-open", data := String.mk n, name := String.mk n }

/-- An attr-begin token (data is the attribute name). -/
def attrBeginElem (n tag : List Char) : HElem :=
  { typ := "attr-begin", data := String.mk n, name := String.mk n,
    tag_name := String.mk tag }

/-- An attr-value token; `data` keeps the raw slice including quotes,
`value` the unquoted attribute value. -/
def attrValueElem (d v an tag : List Char) : HElem :=
  { typ := "attr-value", data := String.mk d, value := String.mk v,
    attr_name := String.mk an, tag_name := String.mk tag }

/-- The tag-open-end token (data is the trailing whitespace and the
slash/gt run closing the tag). -/
def tagOpenEndElem (d tag : List Char) (attrs : List (String × Nat)) : HElem :=
  { typ := "tag-open-end", data := String.mk d, name := String.mk tag,
    attrs := attrs }

/-- The raw content of a style/script tag. -/
def rawtextElem (tag content : List Char) : HElem :=
  { typ := "tag-rawtext", data := String.mk content, name := String.mk tag }

/-- ASCII letter test (`string.ascii_letters`). -/
def asciiLetter (c : Char) : Bool :=
  (97 ≤ c.toNat && c.toNat ≤ 122) || (65 ≤ c.toNat && c.toNat ≤ 90)

/-- Stop characters of the tag-name scan. -/
def tagStops : List Char := ['\t', '\r', '\n', ' ', '/', '>']

/-- Stop characters of the attribute-name scan. -/
def attrNameStops : List Char := ['\t', '\r', '\n', ' ', '/', '>', '=']

/-- Stop characters of the unquoted attribute-value scan. -/
def attrValueStops : List Char := ['\t', '\r', '\n', ' ', '>']

/-- The delimiter set tested after a rawtext `</tag` match. -/
def rawtextDelims : List Char := ['\t', '\r', '\n', ' ', '/', '>', '=']

/-- The HTML comment scan: consume until and including the closing
arrow, or everything. -/
def scanComment : List Char → List Char × List Char
  | [] => ([], [])
  | c :: rest =>
    if ("-->".toList).isPrefixOf (c :: rest) then
      ((c :: rest).take 3, (c :: rest).drop 3)
    else
      let p := scanComment rest
      (c :: p.1, p.2)

/-- The comment-skipping head of an HTMLTokenizer `_parse` iteration;
an IE conditional comment opener is consumed without skipping its
contents. -/
def htmlCommentPhase (buf l : List Char) : List Char × List Char :=
  if ("<!--".toList).isPrefixOf l then
    let l1 := l.drop 4
    if ("[if IE ".toList).isPrefixOf l1 then
      (buf ++ l.take 4 ++ l1.take 7, l1.drop 7)
    else
      let sc := scanComment l1
      (buf ++ l.take 4 ++ sc.1, sc.2)
  else (buf, l)

/-- One iteration of the attribute-reading loop: either the tag ends
(`inl`: emitted elements and rest, after the `assert` check) or one
attribute was read (`inr`: elements, first-occurrence map, rest).
`.error` models the `assert peek(-1)` failure and the `TypeError` of
the quote test when the input ends right after an equals sign. -/
def tagAttrStep (tagName : List Char) (acc : List HElem)
    (attrs : List (String × Nat)) (l : List Char) :
    Except Unit ((List HElem × List Char) ⊕
                 (List HElem × List (String × Nat) × List Char)) :=
  let wp := spanWhile wsChars l
  match wp.2 with
  | [] => .ok (.inl (acc ++ [tagOpenEndElem wp.1 tagName attrs], []))
  | c :: rest =>
    if c = '/' || c = '>' then
      let sp := spanWhile ['/', '>'] (c :: rest)
      if sp.2 = [] || sp.1.getLast? = some '>' then
        .ok (.inl (acc ++ [tagOpenEndElem (wp.1 ++ sp.1) tagName attrs], sp.2))
      else .error ()
    else
      let an := spanUntil attrNameStops (c :: rest)
      let acc2 := acc ++ [unknownElem wp.1, attrBeginElem an.1 tagName]
      match an.2 with
      | [] => .ok (.inr (acc2, attrs, []))
      | c3 :: l3 =>
        if c3 = '=' then
        let acc3 := acc2 ++ [unknownElem ['=']]
        match l3 with
        | [] => .error ()
        | q :: l4 =>
          if q = dquoteChr || q = squoteChr then
            let vp := spanUntil [q] l4
            let cl : List Char × List Char :=
              match vp.2 with
              | c2 :: r2 => ([c2], r2)
              | [] => ([], [])
            let attrs2 :=
              if (lookupA attrs (String.mk an.1)).isNone then
                attrs ++ [(String.mk an.1, acc3.length)]
              else attrs
            .ok (.inr (acc3 ++ [attrValueElem (q :: vp.1 ++ cl.1) vp.1 an.1 tagName],
                       attrs2, cl.2))
          else
            let vp := spanUntil attrValueStops (q :: l4)
            let attrs2 :=
              if (lookupA attrs (String.mk an.1)).isNone then
                attrs ++ [(String.mk an.1, acc3.length)]
              else attrs
            .ok (.inr (acc3 ++ [attrValueElem vp.1 vp.1 an.1 tagName],
                       attrs2, vp.2))
        else .ok (.inr (acc2, attrs, c3 :: l3))

/-- The attribute-reading loop, fueled. -/
def tagAttrLoop (tagName : List Char) : Nat → List HElem →
    List (String × Nat) → List Char → Except Unit (List HElem × List Char)
  | 0, acc, _, l => .ok (acc ++ [unknownElem l], [])
  | fuel + 1, acc, attrs, l =>
    match tagAttrStep tagName acc attrs l with
    | .error e => .error e
    | .ok (.inl r) => .ok r
    | .ok (.inr c) => tagAttrLoop tagName fuel c.1 c.2.1 c.2.2

/-- The rawtext scan after a style/script tag: look for `</tag`
followed by a delimiter; on a hit, report the content scanned so far
and the rest starting at the match (the buggy `jump` context manager
restores `pos` to its own argument, un-consuming the matched `</tag`).
`.error` models the `TypeError` of the delimiter test when `</tag`
sits at the very end of the input. -/
def rawtextScanAux (pat : List Char) : Nat → List Char → List Char →
    Except Unit (Option (List Char × List Char))
  | 0, _, _ => .ok Option.none
  | fuel + 1, con, l =>
    match l with
    | [] => .ok Option.none
    | c :: rest =>
      if pat.isPrefixOf (c :: rest) then
        match (c :: rest).drop pat.length with
        | [] => .error ()
        | d :: _ =>
          if d ∈ rawtextDelims then .ok (some (con.reverse, c :: rest))
          else
            rawtextScanAux pat fuel
              (((c :: rest).take (pat.length + 1)).reverse ++ con)
              ((c :: rest).drop (pat.length + 1))
      else rawtextScanAux pat fuel (c :: con) rest

/-- The rawtext scan, fueled by the input length. -/
def rawtextScan (pat : List Char) (l : List Char) :
    Except Unit (Option (List Char × List Char)) :=
  rawtextScanAux pat (l.length + 1) [] l

/-- One iteration of the HTMLTokenizer `_parse` loop on a non-empty
rest: comment skipping, then markup-declaration skipping, a tag with
its attributes and style/script rawtext, or plain text. -/
def htmlStep (acc : List HElem) (buf l : List Char) :
    Except Unit (List HElem × List Char × List Char) :=
  let cp := htmlCommentPhase buf l
  let buf1 := cp.1
  match cp.2 with
  | [] => .ok (acc, buf1, [])
  | c :: l2 =>
    if c = '<' then
      match l2 with
      | [] => .ok (acc, buf1 ++ ['<'], [])
      | c2 :: l3 =>
        if c2 = '!' then
          let sp := spanUntil ['>'] (c2 :: l3)
          .ok (acc, buf1 ++ '<' :: sp.1, sp.2)
        else if asciiLetter c2 then
          let tn := spanUntil tagStops (c2 :: l3)
          let acc2 := acc ++ [unknownElem (buf1 ++ ['<']), tagOpenElem tn.1]
          match tagAttrLoop tn.1 (tn.2.length + 1) acc2 [] tn.2 with
          | .error e => .error e
          | .ok r =>
            let acc3 := r.1
            let l5 := r.2
            if tn.1 = "style".toList || tn.1 = "script".toList then
              let acc4 := acc3 ++ [unknownElem []]
              match rawtextScan ('<' :: '/' :: tn.1) l5 with
              | .error e => .error e
              | .ok (some rt) => .ok (acc4 ++ [rawtextElem tn.1 rt.1], [], rt.2)
              | .ok Option.none => .ok (acc4, l5, [])
            else .ok (acc3, [], l5)
        else .ok (acc, buf1 ++ ['<', c2], l3)
    else .ok (acc, buf1 ++ [c], l2)

/-- HTMLTokenizer `_parse` as a fuel-indexed loop; the final
`switch_element` flushes the buffer as an unknown element. -/
def htmlParseLoop : Nat → List HElem → List Char → List Char →
    Except Unit (List HElem)
  | 0, acc, buf, l => .ok (acc ++ [unknownElem (buf ++ l)])
  | fuel + 1, acc, buf, l =>
    match l with
    | [] => .ok (acc ++ [unknownElem buf])
    | _ :: _ =>
      match htmlStep acc buf l with
      | .error e => .error e
      | .ok r => htmlParseLoop fuel r.1 r.2.1 r.2.2

/-- HTMLTokenizer `_parse`. -/
def htmlTokenize (s : String) : Except Unit (List HElem) :=
  htmlParseLoop (s.toList.length + 2) [] [] s.toList

/-- The HTMLParser `tags` table, reduced to the per-tag `attr` lists
(`none` means the tag is not in the table, `some []` a tag entry
without an `attr` key). -/
def htmlTagAttrs (tag : String) : Option (List String) :=
  if tag = "a" then some ["href"]
  else if tag = "img" then some ["href", "src", "lowsrc"]
  else if tag = "script" then some ["src"]
  else if tag = "link" then some []
  else if tag = "applet" then some ["code"]
  else if tag = "bgsound" then some ["src"]
  else if tag = "area" then some ["href"]
  else if tag = "body" then some ["background"]
  else if tag = "embed" then some ["src"]
  else if tag = "fig" then some ["src"]
  else if tag = "frame" then some ["src"]
  else if tag = "form" then some []
  else if tag = "iframe" then some ["src"]
  else if tag = "input" then some ["src"]
  else if tag = "layer" then some ["src"]
  else if tag = "meta" then some []
  else if tag = "style" then some []
  else if tag = "object" then some ["data"]
  else if tag = "overlay" then some ["src"]
  else if tag = "table" then some ["background"]
  else if tag = "td" then some ["background"]
  else if tag = "th" then some ["background"]
  else Option.none

/-- The document base url: the value of the first base-href attr-value
token, empty when absent (the use site only tests truthiness). -/
def findBase : List HElem → String
  | [] => ""
  | e :: rest =>
    if e.typ = "attr-value" && e.attr_name = "href" && e.tag_name = "base" then
      e.value
    else findBase rest

/-- The value of the element at an index (used through the
first-occurrence attribute map of a tag-open-end token). -/
def elemValueAt (elems : List HElem) (i : Nat) : String :=
  ((elems.get? i).map HElem.value).getD ""

/-- One work item of `HTMLParser.replace_urls`: a nested CSS parser
for a style attribute value, a nested CSS parser for the raw content
of a style tag, or a plain url whose setter re-writes the attr-value
token at the index. -/
inductive UrlItem where
  | styleAttrCss (idx : Nat) (value : String)
  | rawCss (idx : Nat) (content : String)
  | plainUrl (idx : Nat) (url : String)
deriving DecidableEq

/-- `_handle_tag_link`: yields the href, but crashes with
AttributeError when the link tag has no rel attribute
(`rel.split` on None). -/
def linkTagItems (elems : List HElem) (e : HElem) : Except Unit (List UrlItem) :=
  match lookupA e.attrs "href" with
  | Option.none => .ok []
  | some tokIdx =>
    let url := elemValueAt elems tokIdx
    if url = "" then .ok []
    else
      match lookupA e.attrs "rel" with
      | Option.none => .error ()
      | some _ => .ok [UrlItem.plainUrl tokIdx (strStrip url)]

/-- `_handle_tag_form`: yields the action url. -/
def formTagItems (elems : List HElem) (e : HElem) : Except Unit (List UrlItem) :=
  match lookupA e.attrs "action" with
  | Option.none => .ok []
  | some tokIdx =>
    let url := elemValueAt elems tokIdx
    if url = "" then .ok []
    else .ok [UrlItem.plainUrl tokIdx (strStrip url)]

/-- `_handle_tag_meta`: a refresh meta whose content matches `url=`
(case-insensitively) yields `match.groups(0)`, a tuple, on which the
driver loop then calls `.strip()` -- an AttributeError. -/
def metaTagItems (elems : List HElem) (e : HElem) : Except Unit (List UrlItem) :=
  let nameV := strLower (((lookupA e.attrs "name").map (elemValueAt elems)).getD "")
  let httpEquiv :=
    strLower (((lookupA e.attrs "http-equiv").map (elemValueAt elems)).getD "")
  if nameV = "robots" then .ok []
  else if httpEquiv = "refresh" then
    let content := ((lookupA e.attrs "content").map (elemValueAt elems)).getD ""
    if ("url=".toList).isPrefixOf (strLower content).toList then .error ()
    else .ok []
  else .ok []

/-- The items `_iter_urls` produces for one element. -/
def itemsOfElem (uj : String → String → String) (docBase : String)
    (elems : List HElem) (idx : Nat) (e : HElem) : Except Unit (List UrlItem) :=
  if e.typ = "attr-value" then
    let styleItems :=
      if e.attr_name = "style" then [UrlItem.styleAttrCss idx e.value] else []
    match htmlTagAttrs e.tag_name with
    | Option.none => .ok styleItems
    | some attrList =>
      if e.attr_name ∈ attrList ∧ e.value ≠ "" then
        let url := strStrip e.value
        let url := if docBase ≠ "" then uj docBase url else url
        .ok (styleItems ++ [UrlItem.plainUrl idx url])
      else .ok styleItems
  else if e.typ = "tag-open-end" then
    match htmlTagAttrs e.name with
    | Option.none => .ok []
    | some _ =>
      if e.name = "link" then linkTagItems elems e
      else if e.name = "form" then formTagItems elems e
      else if e.name = "meta" then metaTagItems elems e
      else .ok []
  else if e.typ = "tag-rawtext" then
    match htmlTagAttrs e.name with
    | Option.none => .ok []
    | some _ =>
      if e.name = "style" then .ok [UrlItem.rawCss idx e.data] else .ok []
  else .ok []

/-- `_iter_urls` over the element list, tracking the element index. -/
def iterUrlsAux (uj : String → String → String) (docBase : String)
    (elems : List HElem) : Nat → List HElem → Except Unit (List UrlItem)
  | _, [] => .ok []
  | idx, e :: rest =>
    match itemsOfElem uj docBase elems idx e with
    | .error er => .error er
    | .ok items1 =>
      match iterUrlsAux uj docBase elems (idx + 1) rest with
      | .error er => .error er
      | .ok items2 => .ok (items1 ++ items2)

/-- `HTMLParser._iter_urls`. -/
def iterUrls (uj : String → String → String) (elems : List HElem) :
    Except Unit (List UrlItem) :=
  iterUrlsAux uj (findBase elems) elems 0 elems

/-- Replace the data of the element at an index. -/
def modifyData : List HElem → Nat → String → List HElem
  | [], _, _ => []
  | e :: rest, 0, d => { e with data := d } :: rest
  | e :: rest, i + 1, d => e :: modifyData rest i d

/-- The attr-value setter with the default double quoting: wrap in
double quotes, escaping inner double quotes as an entity. -/
def dquoteEsc (s : String) : String := dq (strReplaceChar s dquoteChr "&quot;")

/-- Apply one work item, as `HTMLParser.replace_urls` does: style
attributes run the nested CSS parser with single-quote escaping and
the result is unconditionally re-set double-quoted; style tag content
runs it with the default double-quote escaping and is set verbatim;
a plain url is re-set (double-quoted) only when the replacer returns
a truthy value for the absolutized url. -/
def applyItem (uj : String → String → String) (base : String)
    (replacer : Replacer) (elems : List HElem) :
    UrlItem → Except Unit (List HElem)
  | .styleAttrCss idx value =>
    match cssReplaceUrls uj base .single replacer value with
    | .error er => .error er
    | .ok css => .ok (modifyData elems idx (dquoteEsc css))
  | .rawCss idx content =>
    match cssReplaceUrls uj base .double replacer content with
    | .error er => .error er
    | .ok css => .ok (modifyData elems idx css)
  | .plainUrl idx url =>
    match replacer (uj base url) with
    | some u => if u ≠ "" then .ok (modifyData elems idx (dquoteEsc u)) else .ok elems
    | Option.none => .ok elems

/-- Apply all work items in order. -/
def applyItems (uj : String → String → String) (base : String)
    (replacer : Replacer) : List HElem → List UrlItem →
    Except Unit (List HElem)
  | elems, [] => .ok elems
  | elems, it :: rest =>
    match applyItem uj base replacer elems it with
    | .error er => .error er
    | .ok elems2 => applyItems uj base replacer elems2 rest

/-- Concatenated element data of a token list. -/
def joinH (elems : List HElem) : List Char :=
  (elems.map (fun e => e.data.toList)).flatten

/-- Concatenated element data of a CSS element list. -/
def joinC (elems : List CElem) : List Char :=
  (elems.map (fun e => e.data.toList)).flatten

/-- `HTMLParser.replace_urls`: tokenize, iterate the urls, apply each
setter, join the element data. -/
def htmlReplaceUrls (uj : String → String → String) (base : String)
    (replacer : Replacer) (s : String) : Except Unit String :=
  match htmlTokenize s with
  | .error er => .error er
  | .ok elems =>
    match iterUrls uj elems with
    | .error er => .error er
    | .ok items =>
      match applyItems uj base replacer elems items with
      | .error er => .error er
      | .ok elems2 => .ok (String.mk (joinH elems2))

/-- The well-quotedness condition of one token: a style attr-value
must already be double-quoted with no inner double quote for the
rewrite to be able to reproduce it. -/
def styleElemOk (e : HElem) : Bool :=
  !(e.typ == "attr-value" && e.attr_name == "style") ||
    (e.data == dq e.value && !(strContainsChar e.value dquoteChr))

/-- The well-quotedness condition over a token list. -/
def styleElemsOk (elems : List HElem) : Bool :=
  elems.all styleElemOk

/-- The join of a successful `tagAttrStep` result. -/
def attrStepJoin : (List HElem × List Char) ⊕
    (List HElem × List (String × Nat) × List Char) → List Char
  | .inl r => joinH r.1 ++ r.2
  | .inr c => joinH c.1 ++ c.2.2

/-- What a work item promises about the element it points at: a
style-attribute item carries the value of the style attr-value token
at its index, a raw-CSS item carries the data of the rawtext token at
its index. -/
def itemRef (elems : List HElem) : UrlItem → Prop
  | .styleAttrCss idx value => ∃ e, elems.get? idx = some e ∧ e.typ = "attr-value" ∧
      e.attr_name = "style" ∧ e.value = value
  | .rawCss idx content => ∃ e, elems.get? idx = some e ∧ e.data = content
  | .plainUrl _ _ => True

/-- The single-quoted style-attribute counterexample document. -/
def c5CeDoc : String :=
  String.mk ("<a style=".toList ++ squoteChr :: 'b' :: squoteChr :: ['>'])

/-- What the no-op rewrite actually produces for it: the style
attribute re-emitted in double quotes. -/
def c5CeOut : String :=
  String.mk ("<a style=".toList ++ dquoteChr :: 'b' :: dquoteChr :: ['>'])

/-- The CSS document of the round-trip witness. -/
def c5WCss : String := "a url(y) b"

/-- The no-op CSS rewrite output of the witness document. -/
def c5WCssOut : String :=
  match cssReplaceUrls (fun _ u => u) "b" CSSEscape.double noopReplacer c5WCss with
  | .ok o => o
  | .error _ => ""

/-- The HTML document of the round-trip witness. -/
def c5WDoc : String := "<a href=\"x\">hi</a>"

/-- Its token list. -/
def c5WElems : List HElem :=
  match htmlTokenize c5WDoc with
  | .ok es => es
  | .error _ => []

/-- The no-op HTML rewrite output of the witness document. -/
def c5WOut : String :=
  match htmlReplaceUrls (fun _ u => u) "w" noopReplacer c5WDoc with
  | .ok o => o
  | .error _ => ""

theorem lastMatchFrom_cons (link : CLink) (ctx : RuleCtx) (dflt : Bool)
    (r : EvalRule) (rest : List EvalRule) :
    lastMatchFrom link ctx dflt (r :: rest) =
      if rulePasses link ctx r && r.is_stop then r.action
      else if rulePasses link ctx r then lastMatchFrom link ctx r.action rest
      else lastMatchFrom link ctx dflt rest := by
  by_cases hstop : (rulePasses link ctx r && r.is_stop) = true
  · have hp : rulePasses link ctx r = true := ((Bool.and_eq_true _ _).mp hstop).1
    rw [if_pos hstop]
    have h1 : activeRules link ctx (r :: rest) = [r] := by
      simp [activeRules, hstop]
    unfold lastMatchFrom
    rw [h1, List.filter_cons_of_pos hp]
    rfl
  · rw [if_neg (by simpa using hstop)]
    have hact : activeRules link ctx (r :: rest) = r :: activeRules link ctx rest := by
      simp [activeRules, hstop]
    by_cases hp : rulePasses link ctx r = true
    · rw [if_pos hp]
      unfold lastMatchFrom
      rw [hact, List.filter_cons_of_pos hp]
      cases hF : (activeRules link ctx rest).filter (rulePasses link ctx) with
      | nil => rfl
      | cons a l =>
        rw [List.getLast?_cons_cons]
        cases h2 : (a :: l).getLast? with
        | none => exact absurd h2 (by simp)
        | some x => rfl
    · rw [if_neg hp]
      unfold lastMatchFrom
      rw [hact, List.filter_cons_of_neg (by simpa using hp)]

theorem applyRulesAux_eq_lastMatchFrom (link : CLink) (ctx : RuleCtx)
    (rules : List EvalRule) (dflt : Bool)
    (h : ∀ r ∈ rules, ∃ b, runTest r link ctx = .ok b) :
    applyRulesAux link ctx rules dflt = .ok (lastMatchFrom link ctx dflt rules) := by
  induction rules generalizing dflt with
  | nil => simp [applyRulesAux, lastMatchFrom, activeRules]
  | cons r rest ih =>
    obtain ⟨b, hb⟩ := h r (List.mem_cons_self r rest)
    have hrest : ∀ r ∈ rest, ∃ b, runTest r link ctx = .ok b :=
      fun x hx => h x (List.mem_cons_of_mem r hx)
    have hpass : rulePasses link ctx r = b := by
      simp [rulePasses, hb]
    rw [lastMatchFrom_cons]
    cases b with
    | true =>
      by_cases hstop : r.is_stop
      · simp [applyRulesAux, hb, hstop, hpass]
      · simp [applyRulesAux, hb, hstop, hpass, ih _ hrest]
    | false =>
      simp [applyRulesAux, hb, hpass, ih _ hrest]

/-- C1: rule-list evaluation starts from default `False`, processes
rules left to right with last-match-wins overwriting, and a passing
hard rule halts evaluation: `_apply_rules` agrees with the
last-match-wins reformulation `lastMatchEval` whenever no rule errors.
In particular the parsed rule list `["-", "++requisite"]` evaluates to
`True` on a link whose requisite test is true. -/
theorem c1_rule_evaluation :
    (∀ (rules : List EvalRule) (link : CLink) (ctx : RuleCtx),
      (∀ r ∈ rules, ∃ b, runTest r link ctx = .ok b) →
      applyRules rules link ctx = .ok (lastMatchEval link ctx rules)) ∧
    parseRule "-" = .ok ⟨false, false, "", "", ""⟩ ∧
    parseRule "++requisite" = .ok ⟨true, true, "requisite", "", ""⟩ ∧
    TestImpl.requisite c1Link c1Ctx = .ok (.bool true) ∧
    applyRules
      [⟨false, false, TestImpl.default, "", ""⟩,
       ⟨true, true, TestImpl.requisite, "", ""⟩] c1Link c1Ctx = .ok true := by
  refine ⟨?_, by decide, by decide, by decide, by decide⟩
  intro rules link ctx h
  exact applyRulesAux_eq_lastMatchFrom link ctx rules false h

/-- Witness for C1: the general part applied to the concrete two-rule
pipeline of the scenario. -/
theorem c1_rule_evaluation_witness :
    applyRules
      [⟨false, false, TestImpl.default, "", ""⟩,
       ⟨true, true, TestImpl.requisite, "", ""⟩] c1Link c1Ctx =
      .ok (lastMatchEval c1Link c1Ctx
        [⟨false, false, TestImpl.default, "", ""⟩,
         ⟨true, true, TestImpl.requisite, "", ""⟩]) := by
  apply c1_rule_evaluation.1
  intro r hr
  simp only [List.mem_cons, List.not_mem_nil, or_false] at hr
  rcases hr with rfl | rfl
  · exact ⟨true, rfl⟩
  · exact ⟨true, rfl⟩

/-- C6 (code bug): per the claim (and both the spec grammar and the
code's own tests, which call `OperatorImpl.inequality`), `!` is an
operator character, so `"+url!=foo"` parses as test `url`, operator
`!=`, value `foo`.  The source `op_chars` tuple omits `!`, so the test
name is read as `url!` and parsing raises `RuleError`.  The remaining
conjuncts record the behaviour the claim states correctly. -/
theorem c6_rule_parse :
    parseRule "+url!=foo" = .error .ruleError ∧
    parseRule "url=foo" = .error .ruleError ∧
    parseRule "" = .error .indexError ∧
    parseRule "+nosuch=1" = .error .ruleError ∧
    parseRule "++requisite" = .ok ⟨true, true, "requisite", "", ""⟩ ∧
    parseRule "--size<3M" = .ok ⟨false, true, "size", "<", "3M"⟩ ∧
    parseRule "+depth<=3" = .ok ⟨true, false, "depth", "<=", "3"⟩ := by
  decide

/-- C7: a trailing K/M/G unit (case-insensitive) multiplies the user
value by 1000 / 1000000 / 1000000000 in numeric comparisons, and the
ordered operators never match when the user value cannot be normalized
to a number. -/
theorem c7_size_unit_parsing :
    (OperatorImpl.smaller (.num 800) "1K" = true ∧
     OperatorImpl.smaller (.num 1200) "1K" = false ∧
     OperatorImpl.smaller (.num 800) "1k" = true ∧
     normNumericUser "2K" = .num 2000 ∧
     normNumericUser "2M" = .num 2000000 ∧
     normNumericUser "2g" = .num 2000000000) ∧
    ∀ (q : PyNum) (u : String), normNumericUser u = .bool false →
      OperatorImpl.smaller (.num q) u = false ∧
      OperatorImpl.larger (.num q) u = false ∧
      OperatorImpl.smaller_or_equal (.num q) u = false ∧
      OperatorImpl.larger_or_equal (.num q) u = false := by
  refine ⟨by decide, ?_⟩
  intro q u hu
  simp [OperatorImpl.smaller, OperatorImpl.larger, OperatorImpl.smaller_or_equal,
    OperatorImpl.larger_or_equal, normPair, PyVal.isNumber, hu,
    OperatorImpl.same, PyVal.isNoneish]

/-- Witness for C7: the never-match part at the unparseable value
`"abc"`. -/
theorem c7_size_unit_parsing_witness :
    OperatorImpl.smaller (.num 800) "abc" = false :=
  (c7_size_unit_parsing.2 800 "abc" (by decide)).1

/-- C8: on two strings `=` is fnmatch-style glob matching; on a numeric
test result the user value is numeric-normalized and compared; the
`_same` guard makes `False` and `None` mutually equal and unequal to
every non-None/non-False value, so a numeric test result `0` never
compares equal to a `False` normalization. -/
theorem c8_equality_semantics :
    (∀ (s u : String), OperatorImpl.equality (.str s) u = fnmatch s u) ∧
    (∀ (q : PyNum) (u : String) (r : PyNum), normNumericUser u = .num r →
      OperatorImpl.equality (.num q) u = PyNum.eqv q r) ∧
    (OperatorImpl.same .none (.bool false) = true ∧
     OperatorImpl.same (.bool false) .none = true ∧
     ∀ v : PyVal, v.isNoneish = false →
       OperatorImpl.same .none v = false ∧
       OperatorImpl.same (.bool false) v = false) ∧
    (∀ u : String, normNumericUser u = .bool false →
      OperatorImpl.equality (.num 0) u = false) := by
  refine ⟨fun s u => rfl, ?_, ⟨by decide, by decide, ?_⟩, ?_⟩
  · intro q u r hu
    simp [OperatorImpl.equality, normPair, PyVal.isNumber, hu,
      OperatorImpl.same, PyVal.isNoneish, pyEq, PyVal.asNum]
  · intro v hv
    unfold OperatorImpl.same
    rw [hv]
    exact ⟨rfl, rfl⟩
  · intro u hu
    simp [OperatorImpl.equality, normPair, PyVal.isNumber, hu,
      OperatorImpl.same, PyVal.isNoneish]

/-- C9 (code bug): fragment stripping and https folding behave as
claimed, and each piece of lossy data is retained on its own; but for
an https url carrying a fragment the `lossy_url_data` reassignment
drops the fragment, so the two pieces are NOT both retained. -/
theorem c9_lossy_url_data :
    linkUrlData "http://example.org/page#sec" =
      ⟨"http://example.org/page#sec", "http://example.org/page",
        ⟨some "sec", Option.none⟩⟩ ∧
    linkUrlData "https://example.org/page" =
      ⟨"https://example.org/page", "http://example.org/page",
        ⟨Option.none, some "https"⟩⟩ ∧
    linkUrlData "https://example.org/page#sec" =
      ⟨"https://example.org/page#sec", "http://example.org/page",
        ⟨Option.none, some "https"⟩⟩ ∧
    (linkUrlData "https://example.org/page#sec").lossy_url_data.fragment =
      Option.none := by
  refine ⟨by decide, by decide, by decide, by decide⟩

/-- C10: the `tag` test reads `link.extra`, but `Link` keeps its
discovery metadata in `info` and defines no `extra` attribute, so
evaluating any rule built on the `tag` test raises `AttributeError`
for every link (and the error propagates out of `_apply_rules`,
which only catches `Redirect`). -/
theorem c10_tag_test_attribute_error :
    "extra" ∉ linkAttributeNames ∧
    "info" ∈ linkAttributeNames ∧
    (∀ (l : CLink) (c : RuleCtx), TestImpl.tag l c = .error .attributeError) ∧
    (∀ (r : EvalRule) (l : CLink) (c : RuleCtx), r.test = TestImpl.tag →
      runTest r l c = .error .attributeError) ∧
    (∀ (l : CLink) (c : RuleCtx) (a h : Bool) (op v : String)
       (rest : List EvalRule),
      applyRules (⟨a, h, TestImpl.tag, op, v⟩ :: rest) l c =
        .error .attributeError) := by
  refine ⟨by decide, by decide, fun l c => rfl, ?_, fun l c a h op v rest => rfl⟩
  intro r l c htest
  unfold runTest
  rw [htest]
  rfl

/-- Witness for C10: the rule-evaluation part at a concrete rule. -/
theorem c10_tag_test_attribute_error_witness :
    runTest ⟨true, false, TestImpl.tag, "=", "a.href"⟩ c1Link c1Ctx =
      .error .attributeError :=
  c10_tag_test_attribute_error.2.2.2.1
    ⟨true, false, TestImpl.tag, "=", "a.href"⟩ c1Link c1Ctx rfl

/-- Witness for C8: glob matching on strings, numeric comparison after
normalization, and `0 != False` at concrete inputs. -/
theorem c8_equality_semantics_witness :
    OperatorImpl.equality (.str "foo") "*o" = fnmatch "foo" "*o" ∧
    OperatorImpl.equality (.num 1000) "1K" = true ∧
    OperatorImpl.equality (.num 0) "xyz" = false := by
  refine ⟨c8_equality_semantics.1 "foo" "*o", ?_, ?_⟩
  · have h := c8_equality_semantics.2.1 1000 "1K" 1000 (by decide)
    rw [h]; decide
  · exact c8_equality_semantics.2.2.2 "xyz" (by decide)

/-- C4 (code bug): `_convert_links(for_url=B)` selects exactly B's own
file plus the files of B's referrers A and C — the unrelated page D is
not selected, as the claim states — but instead of rewriting those
files the per-file step raises `AttributeError`, because it invokes
`parsed.replace_links`, a method no parser class defines (they define
`replace_urls`); tests/test_mirror.py `TestConvertLinks` and
tests/test_spider.py expect the rewrite to happen. -/
theorem c4_convert_links_selection_and_crash :
    filesToProcess c4State (some "http://example.org/b") =
      .ok [("http://example.org/b", "example.org/b.html"),
           ("http://example.org/a", "example.org/a.html"),
           ("http://example.org/c", "example.org/c.html")] ∧
    (∀ sel, filesToProcess c4State (some "http://example.org/b") = .ok sel →
      ("http://example.org/d", "example.org/d.html") ∉ sel) ∧
    convertLinks c4State (some "http://example.org/b") =
      .error .attributeError := by
  refine ⟨by decide, ?_, by decide⟩
  intro sel hsel
  have h : sel = [("http://example.org/b", "example.org/b.html"),
      ("http://example.org/a", "example.org/a.html"),
      ("http://example.org/c", "example.org/c.html")] := by
    have h0 : filesToProcess c4State (some "http://example.org/b") =
        .ok [("http://example.org/b", "example.org/b.html"),
             ("http://example.org/a", "example.org/a.html"),
             ("http://example.org/c", "example.org/c.html")] := by decide
    rw [h0] at hsel
    injection hsel with h1
    exact h1.symm
  rw [h]
  decide

/-- Witness for C4: the selection fact instantiated at the selection
the model computes. -/
theorem c4_convert_links_selection_and_crash_witness :
    ("http://example.org/d", "example.org/d.html") ∉
      [("http://example.org/b", "example.org/b.html"),
       ("http://example.org/a", "example.org/a.html"),
       ("http://example.org/c", "example.org/c.html")] :=
  c4_convert_links_selection_and_crash.2.1 _ (by decide)

theorem spiderAddInternal_fields (cfg : SpiderConfig) (s : SpiderState)
    (prev : Option SLink) (url : String) (info : LinkInfo) :
    (spiderAddInternal cfg s prev url info).requests = s.requests ∧
    (spiderAddInternal cfg s prev url info).known_urls = s.known_urls := by
  unfold spiderAddInternal
  cases mkSLink cfg url prev info with
  | none => exact ⟨rfl, rfl⟩
  | some l =>
    by_cases h : l.url ∈ s.known_urls
    · simp [h]
    · simp [h]

theorem foldAdd_fields (cfg : SpiderConfig) (prev : Option SLink)
    (ls : List (String × LinkInfo)) :
    ∀ s : SpiderState,
      ((ls.foldl (fun st p => spiderAddInternal cfg st prev p.1 p.2) s).requests
        = s.requests) ∧
      ((ls.foldl (fun st p => spiderAddInternal cfg st prev p.1 p.2) s).known_urls
        = s.known_urls) := by
  induction ls with
  | nil => intro s; exact ⟨rfl, rfl⟩
  | cons p rest ih =>
    intro s
    simp only [List.foldl_cons]
    rcases ih (spiderAddInternal cfg s prev p.1 p.2) with ⟨h1, h2⟩
    rcases spiderAddInternal_fields cfg s prev p.1 p.2 with ⟨g1, g2⟩
    exact ⟨h1.trans g1, h2.trans g2⟩

theorem processTail_plain_eq (cfg : SpiderConfig) (s : SpiderState) (link : SLink)
    (resp : SResponse) (m : MirrorState)
    (hsave : cfg.saveRule link = true)
    (hm : mirrorAdd cfg s.mirror link resp = .ok m) :
    processTail cfg s link false false (some resp) =
      if cfg.stopRule link then
        .ok ({ s with mirror := m,
                      known_urls := s.known_urls ++ [link.url],
                      events := s.events ++
                        [SEvent.saveState link.url true,
                         SEvent.bailState link.url true] },
          Option.none)
      else
        .ok ({ (resp.links.foldl
                  (fun st p => spiderAddInternal cfg st (some link) p.1 p.2)
                  { s with mirror := m,
                           known_urls := s.known_urls ++ [link.url],
                           events := s.events ++ [SEvent.saveState link.url true] }) with
               events :=
                 (resp.links.foldl
                   (fun st p => spiderAddInternal cfg st (some link) p.1 p.2)
                   { s with mirror := m,
                            known_urls := s.known_urls ++ [link.url],
                            events := s.events ++ [SEvent.saveState link.url true] }).events
                 ++ [SEvent.bailState link.url false] },
          Option.none) := by
  by_cases hstop : cfg.stopRule link = true
  · simp [processTail, hsave, hm, Except.map, hstop]
  · simp [processTail, hsave, hm, Except.map, hstop]

theorem processTail_plain (cfg : SpiderConfig) (s : SpiderState) (link : SLink)
    (resp : SResponse) (hsave : cfg.saveRule link = true) :
    ∀ s' again, processTail cfg s link false false (some resp) = .ok (s', again) →
      s'.requests = s.requests ∧ s'.known_urls = s.known_urls ++ [link.url] ∧
      again = Option.none := by
  intro s' again h
  cases hm : mirrorAdd cfg s.mirror link resp with
  | error e =>
    simp [processTail, hsave, hm, Except.map] at h
  | ok m =>
    rw [processTail_plain_eq cfg s link resp m hsave hm] at h
    by_cases hstop : cfg.stopRule link = true
    · rw [if_pos hstop] at h
      injection h with h1
      injection h1 with h2 h3
      refine ⟨by rw [← h2], by rw [← h2], h3.symm⟩
    · rw [if_neg hstop] at h
      injection h with h1
      injection h1 with h2 h3
      rcases foldAdd_fields cfg (some link) resp.links
        { s with mirror := m,
                 known_urls := s.known_urls ++ [link.url],
                 events := s.events ++ [SEvent.saveState link.url true] } with ⟨f1, f2⟩
      refine ⟨?_, ?_, h3.symm⟩
      · rw [← h2]
        exact f1
      · rw [← h2]
        exact f2

theorem processLink_requests (cfg : SpiderConfig) (s : SpiderState) (link : SLink)
    (hnet : plainSuccessNet cfg) (hsave : savesEverything cfg)
    (hskip : neverSkipsDownload cfg) :
    ∀ s' again, processLink cfg s link = .ok (s', again) →
      again = Option.none ∧
      ((s'.requests = s.requests ∧ s'.known_urls = s.known_urls) ∨
       (link.url ∉ s.known_urls ∧ s'.requests = s.requests ++ [link.url] ∧
        s'.known_urls = s.known_urls ++ [link.url])) := by
  intro s' again h
  unfold processLink at h
  by_cases hdnf : link.info.do_not_follow = true
  · rw [if_pos hdnf] at h
    injection h with h1
    injection h1 with h2 h3
    subst h2
    exact ⟨h3.symm, Or.inl ⟨rfl, rfl⟩⟩
  · rw [if_neg hdnf] at h
    by_cases hknown : link.url ∈ s.known_urls
    · rw [if_pos hknown] at h
      injection h with h1
      injection h1 with h2 h3
      subst h2
      exact ⟨h3.symm, Or.inl ⟨rfl, rfl⟩⟩
    · rw [if_neg hknown] at h
      obtain ⟨r, hr, hred, hlt, h304⟩ := hnet link.url
      have h400 : ¬ (r.status ≥ 400) := Nat.not_le.mpr hlt
      have hbeq : (r.status == 304) = false := by
        simpa using h304
      by_cases hUser : link.source = some "user"
      · simp only [hUser, eq_self_iff_true, decide_True, Bool.not_true,
          Bool.false_and, Bool.false_eq_true, if_false, if_true, hskip link,
          Bool.not_false, hr, hred, List.getLast?_nil, h400, hbeq,
          ite_false, ite_true] at h
        rcases processTail_plain cfg _ link r (hsave link) s' again h with
          ⟨hreq, hkn, hagain⟩
        refine ⟨hagain, Or.inr ⟨hknown, ?_, ?_⟩⟩
        · rw [hreq]
        · rw [hkn]
      · by_cases hfollow : cfg.followRule link = true
        · simp only [hUser, decide_False, Bool.not_false, hfollow,
            Bool.not_true, Bool.and_false, Bool.false_eq_true, if_false,
            hskip link, if_true, hr, hred, List.getLast?_nil, h400, hbeq,
            ite_false, ite_true, eq_self_iff_true] at h
          rcases processTail_plain cfg _ link r (hsave link) s' again h with
            ⟨hreq, hkn, hagain⟩
          refine ⟨hagain, Or.inr ⟨hknown, ?_, ?_⟩⟩
          · rw [hreq]
          · rw [hkn]
        · simp only [hUser, decide_False, Bool.not_false,
            (by simp [hfollow] : cfg.followRule link = false),
            Bool.and_true, Bool.not_true, if_true, eq_self_iff_true,
            ite_true, if_false, ite_false] at h
          injection h with h1
          injection h1 with h2 h3
          subst h2
          exact ⟨h3.symm, Or.inl ⟨by simp, by simp⟩⟩

theorem processOne_invariant (cfg : SpiderConfig)
    (hnet : plainSuccessNet cfg) (hsave : savesEverything cfg)
    (hskip : neverSkipsDownload cfg) (s s' : SpiderState)
    (hinv : requestInvariant s) (h : processOne cfg s = .ok s') :
    requestInvariant s' := by
  unfold processOne at h
  cases hq : s.queue.getLast? with
  | none =>
    rw [hq] at h
    injection h with h1
    subst h1
    exact hinv
  | some link =>
    rw [hq] at h
    simp only [] at h
    cases hp : processLink cfg
        { s with queue := s.queue.dropLast,
                 events := s.events ++ [SEvent.takenByProcessor link.url] } link with
    | error e =>
      rw [hp] at h
      exact absurd h (by simp)
    | ok pr =>
      obtain ⟨s1, again⟩ := pr
      rw [hp] at h
      rcases processLink_requests cfg _ link hnet hsave hskip s1 again hp with
        ⟨hagain, hcases⟩
      subst hagain
      injection h with h1
      subst h1
      rcases hcases with ⟨hreq, hkn⟩ | ⟨hnotin, hreq, hkn⟩
      · refine ⟨?_, ?_⟩
        · show s1.requests.Nodup
          rw [hreq]
          exact hinv.1
        · show ∀ u ∈ s1.requests, u ∈ s1.known_urls
          rw [hreq, hkn]
          exact hinv.2
      · have hnotreq : link.url ∉ s.requests := fun hmem => hnotin (hinv.2 _ hmem)
        refine ⟨?_, ?_⟩
        · show s1.requests.Nodup
          rw [hreq]
          refine List.nodup_append.mpr ⟨hinv.1, List.nodup_singleton _, ?_⟩
          intro a ha hb
          rcases List.mem_singleton.mp hb with rfl
          exact hnotreq ha
        · show ∀ u ∈ s1.requests, u ∈ s1.known_urls
          rw [hreq, hkn]
          intro u hu
          rcases List.mem_append.mp hu with hu | hu
          · exact List.mem_append_left _ (hinv.2 _ hu)
          · exact List.mem_append_right _ hu

theorem loopFuel_invariant (cfg : SpiderConfig)
    (hnet : plainSuccessNet cfg) (hsave : savesEverything cfg)
    (hskip : neverSkipsDownload cfg) :
    ∀ (n : Nat) (s s' : SpiderState), requestInvariant s →
      loopFuel cfg n s = .ok s' → requestInvariant s' := by
  intro n
  induction n with
  | zero =>
    intro s s' hinv h
    unfold loopFuel at h
    injection h with h1
    subst h1
    exact hinv
  | succ k ih =>
    intro s s' hinv h
    unfold loopFuel at h
    by_cases hq : s.queue.isEmpty = true
    · rw [if_pos hq] at h
      cases hf : mirrorFinish s.mirror with
      | error e =>
        rw [hf] at h
        simp [Except.map] at h
      | ok m =>
        rw [hf] at h
        simp only [Except.map] at h
        injection h with h1
        subst h1
        exact ⟨hinv.1, hinv.2⟩
    · rw [if_neg hq] at h
      cases hp : processOne cfg s with
      | error e =>
        rw [hp] at h
        simp at h
      | ok s2 =>
        rw [hp] at h
        exact ih s2 s' (processOne_invariant cfg hnet hsave hskip s s2 hinv hp) h

/-- C2: in a run where every url resolves to a plain success and every
response is saved, `loop()` issues at most one network request per
canonical url — a request is only issued for urls not yet in the known
set, and only completed processing inserts a url into the known set.
Concretely, adding the same seed twice yields two queue entries, but
the run requests the url once, skips the second entry as a duplicate,
and drains the queue. -/
theorem c2_duplicate_suppression :
    (∀ (cfg : SpiderConfig) (n : Nat) (s s' : SpiderState),
      plainSuccessNet cfg → savesEverything cfg → neverSkipsDownload cfg →
      requestInvariant s → loopFuel cfg n s = .ok s' →
      ∀ u, s'.requests.count u ≤ 1) ∧
    (c2InitE.map fun st => st.queue.length) = .ok 2 ∧
    (c2Run.map fun st => st.requests) = .ok [c2Url] ∧
    (c2Run.map fun st =>
      st.events.count (SEvent.followState c2Url "skipped-duplicate")) = .ok 1 ∧
    (c2Run.map fun st => st.queue.isEmpty) = .ok true ∧
    (c2Run.map fun st => st.known_urls) = .ok [c2Url] := by
  refine ⟨?_, by decide, by decide, by decide, by decide, by decide⟩
  intro cfg n s s' hnet hsave hskip hinv h u
  exact List.nodup_iff_count_le_one.mp
    (loopFuel_invariant cfg hnet hsave hskip n s s' hinv h).1 u

/-- Witness for C2: the at-most-once statement applied to an
all-success configuration and a state with one completed request. -/
theorem c2_duplicate_suppression_witness :
    c2WState.requests.count c2Url ≤ 1 := by
  refine c2_duplicate_suppression.1 c2WCfg 0 c2WState c2WState
    (fun u => ⟨⟨200, "text/html", [], [], ""⟩, rfl, rfl, by decide, by decide⟩)
    (fun l => rfl) (fun l => rfl) ⟨by decide, fun u hu => hu⟩ rfl c2Url

/-- C3: when the resolved response of the popped link carries a
redirect chain, `_process_link` constructs a new Link for the chain's
final target inheriting the original link's `previous` and `info`,
appends it to the queue, and records the redirect in the mirror keyed
by the first response's status code; the original url is not marked
known.  Concretely, for the chain foo 302→ bar 302→ baz the follow
rule is evaluated exactly for foo and for baz, never for the
intermediate bar. -/
theorem c3_redirect_collapsing :
    (∀ (cfg : SpiderConfig) (s : SpiderState) (q : List SLink) (link : SLink)
       (r : SResponse) (lastUrl : String) (redirLink : SLink),
      s.queue = q ++ [link] →
      link.info.do_not_follow = false →
      link.url ∉ s.known_urls →
      cfg.skipDownload link = false →
      cfg.internet link.url = .resp r →
      r.redirects.getLast? = some lastUrl →
      mkSLink cfg lastUrl link.previous link.info = some redirLink →
      (link.source = some "user" ∨ cfg.followRule link = true) →
      processOne cfg s = .ok (redirectSuccessor s q link redirLink r.status) ∧
      redirLink.previous = link.previous ∧ redirLink.info = link.info) ∧
    (c3Run.map fun st => st.followLog) = .ok [fooU, bazU] ∧
    (c3Run.map fun st => decide (barU ∈ st.followLog)) = .ok false ∧
    (c3Run.map fun st => lookupA st.mirror.redirects fooU) =
      .ok (some (302, bazU)) ∧
    (c3Run.map fun st => st.requests) = .ok [fooU, bazU] := by
  refine ⟨?_, by decide, by decide, by decide, by decide⟩
  intro cfg s q link r lastUrl redirLink hqueue hdnf hknown hskip hr hlast hmk hfu
  have hpi : redirLink.previous = link.previous ∧ redirLink.info = link.info := by
    cases hn : cfg.normUrl lastUrl with
    | none => simp [mkSLink, hn] at hmk
    | some nurl =>
      simp only [mkSLink, hn, Option.map] at hmk
      injection hmk with h1
      subst h1
      exact ⟨rfl, rfl⟩
  refine ⟨?_, hpi.1, hpi.2⟩
  unfold processOne
  rw [hqueue, List.getLast?_concat, List.dropLast_concat]
  simp only []
  rcases hfu with hUser | hfollow
  · simp [processLink, redirectSuccessor, addRedirect, hdnf, hknown, hskip,
      hr, hlast, hmk, hUser]
  · by_cases hUser : link.source = some "user"
    · simp [processLink, redirectSuccessor, addRedirect, hdnf, hknown, hskip,
        hr, hlast, hmk, hUser]
    · simp [processLink, redirectSuccessor, addRedirect, hdnf, hknown, hskip,
        hr, hlast, hmk, hUser, hfollow]

/-- Witness for C3: the redirect step applied to the scenario state
holding just the `/foo` seed. -/
theorem c3_redirect_collapsing_witness :
    processOne c3Cfg ⟨[c3FooLink], [], emptyMirror, [], [], []⟩ =
      .ok (redirectSuccessor ⟨[c3FooLink], [], emptyMirror, [], [], []⟩
        [] c3FooLink c3BazLink 302) :=
  (c3_redirect_collapsing.1 c3Cfg ⟨[c3FooLink], [], emptyMirror, [], [], []⟩
    [] c3FooLink c3FooResp bazU c3BazLink rfl rfl (by simp) rfl rfl rfl rfl
    (Or.inr rfl)).1

/-- The two halves of `spanWhile` reassemble the input. -/
theorem spanWhile_partition (set : List Char) :
    ∀ l : List Char, (spanWhile set l).1 ++ (spanWhile set l).2 = l := by
  intro l
  induction l with
  | nil => simp [spanWhile]
  | cons c rest ih =>
    by_cases h : c ∈ set <;> simp [spanWhile, h, ih]

/-- The two halves of `spanUntil` reassemble the input. -/
theorem spanUntil_partition (stops : List Char) :
    ∀ l : List Char, (spanUntil stops l).1 ++ (spanUntil stops l).2 = l := by
  intro l
  induction l with
  | nil => simp [spanUntil]
  | cons c rest ih =>
    by_cases h : c ∈ stops <;> simp [spanUntil, h, ih]

/-- The raw consumed characters and the rest of `skipUntilEsc`
reassemble the input. -/
theorem skipUntilEsc_partition (stops : List Char) (esc : Char) :
    ∀ (l : List Char) (quoted : Bool),
      (skipUntilEsc stops esc l quoted).1 ++ (skipUntilEsc stops esc l quoted).2.2 = l := by
  intro l
  induction l with
  | nil => intro quoted; simp [skipUntilEsc]
  | cons c rest ih =>
    intro quoted
    by_cases h1 : c = esc
    · simp [skipUntilEsc, h1, ih]
    · cases quoted with
      | true => simp [skipUntilEsc, h1, ih]
      | false =>
        by_cases h2 : c ∈ stops <;> simp [skipUntilEsc, h1, h2, ih]

/-- The two halves of the CSS comment scan reassemble the input. -/
theorem cssCommentSkip_partition :
    ∀ (n : Nat) (l : List Char), l.length ≤ n →
      (cssCommentSkip l).1 ++ (cssCommentSkip l).2 = l := by
  intro n
  induction n with
  | zero =>
    intro l hl
    cases l with
    | nil => simp [cssCommentSkip]
    | cons c rest => simp at hl
  | succ n ih =>
    intro l hl
    match l with
    | [] => simp [cssCommentSkip]
    | [c] => simp [cssCommentSkip]
    | c :: d :: rest =>
      by_cases h : c = '*' && d = '/'
      · simp [cssCommentSkip, h]
      · have hr : rest.length ≤ n := by
          simp only [List.length_cons] at hl
          omega
        simp [cssCommentSkip, h, ih rest hr]

/-- The consumed slice and the rest of `cssQuotedUrl` reassemble the
input. -/
theorem cssQuotedUrl_partition (q : Char) (l : List Char) :
    (cssQuotedUrl q l).1 ++ (cssQuotedUrl q l).2.2 = l := by
  have h := skipUntilEsc_partition [q, '\n', '\r'] backslashChr l false
  unfold cssQuotedUrl
  cases hr : (skipUntilEsc [q, '\n', '\r'] backslashChr l false).2.2 with
  | nil =>
    rw [hr] at h
    simp only [hr]
    simpa using h
  | cons c rest2 =>
    rw [hr] at h
    simp only [hr]
    split
    · rw [List.append_assoc]
      simpa using h
    · simpa using h

/-- The two halves of the HTML comment scan reassemble the input. -/
theorem scanComment_partition :
    ∀ l : List Char, (scanComment l).1 ++ (scanComment l).2 = l := by
  intro l
  induction l with
  | nil => simp [scanComment]
  | cons c rest ih =>
    rw [scanComment]
    split
    · exact List.take_append_drop 3 (c :: rest)
    · simpa using ih

/-- The comment phase of the CSS loop only moves characters from the
rest into the buffer. -/
theorem cssCommentPhase_partition (buf l : List Char) :
    (cssCommentPhase buf l).1 ++ (cssCommentPhase buf l).2 = buf ++ l := by
  unfold cssCommentPhase
  match l with
  | [] => simp
  | [c] => simp
  | c :: d :: rest2 =>
    by_cases h : c = '/' && d = '*'
    · have := cssCommentSkip_partition rest2.length rest2 (Nat.le_refl _)
      simp [h, this]
    · simp [h]

/-- Rebuilding a string from its character list. -/
theorem strMk_toList (s : String) : String.mk s.toList = s := rfl

/-- Appending element lists concatenates their data. -/
theorem joinC_append (a b : List CElem) : joinC (a ++ b) = joinC a ++ joinC b := by
  simp [joinC]

/-- The data of the two CSS element shapes. -/
theorem joinC_pair (d1 : List Char) (d2 u : List Char) :
    joinC [cssUnknown d1, cssUrl d2 u] = d1 ++ d2 := by
  simp [joinC, cssUnknown, cssUrl]

/-- A fold that appends one chunk per element produces the flattened
chunk list. -/
theorem foldl_append_chunks {α : Type} (f : α → List Char) :
    ∀ (l : List α) (a : List Char),
      l.foldl (fun acc e => acc ++ f e) a = a ++ (l.map f).flatten := by
  intro l
  induction l with
  | nil => intro a; simp
  | cons e rest ih => intro a; simp [ih]

/-- One CSS step only moves characters: the emitted data plus the new
buffer and rest reassemble the old buffer and rest. -/
theorem cssStep_partition (buf l : List Char) (es : List CElem)
    (buf2 l2 : List Char) (h : cssStep buf l = .ok (es, buf2, l2)) :
    joinC es ++ buf2 ++ l2 = buf ++ l := by
  have hcp := cssCommentPhase_partition buf l
  unfold cssStep at h
  simp only [] at h
  by_cases hImp : ("@import".toList).isPrefixOf ((cssCommentPhase buf l).2) = true
  · rw [if_pos hImp] at h
    have htd : (cssCommentPhase buf l).2.take 7 ++ (cssCommentPhase buf l).2.drop 7 =
        (cssCommentPhase buf l).2 := List.take_append_drop _ _
    have hwp := spanWhile_partition wsChars ((cssCommentPhase buf l).2.drop 7)
    cases hwq : (spanWhile wsChars ((cssCommentPhase buf l).2.drop 7)).2 with
    | nil =>
      rw [hwq] at h
      exact absurd h (by simp)
    | cons q l4 =>
      rw [hwq] at hwp
      rw [hwq] at h
      simp only [] at h
      split at h
      · have hr := cssQuotedUrl_partition q l4
        simp only [Except.ok.injEq, Prod.mk.injEq] at h
        obtain ⟨h1, h2, h3⟩ := h
        subst h1; subst h2; subst h3
        rw [joinC_pair]
        simp only [List.append_nil, List.nil_append]
        calc ((cssCommentPhase buf l).1 ++ (cssCommentPhase buf l).2.take 7 ++
                (spanWhile wsChars ((cssCommentPhase buf l).2.drop 7)).1 ++
                q :: (cssQuotedUrl q l4).1) ++ (cssQuotedUrl q l4).2.2
            = (cssCommentPhase buf l).1 ++ ((cssCommentPhase buf l).2.take 7 ++
                ((spanWhile wsChars ((cssCommentPhase buf l).2.drop 7)).1 ++
                q :: ((cssQuotedUrl q l4).1 ++ (cssQuotedUrl q l4).2.2))) := by
              simp [List.append_assoc]
          _ = buf ++ l := by rw [hr, hwp, htd, hcp]
      · simp only [Except.ok.injEq, Prod.mk.injEq] at h
        obtain ⟨h1, h2, h3⟩ := h
        subst h1; subst h2; subst h3
        simp only [joinC, List.map_nil, List.flatten_nil, List.nil_append]
        calc ((cssCommentPhase buf l).1 ++ (cssCommentPhase buf l).2.take 7 ++
                (spanWhile wsChars ((cssCommentPhase buf l).2.drop 7)).1) ++
                (q :: l4)
            = (cssCommentPhase buf l).1 ++ ((cssCommentPhase buf l).2.take 7 ++
                ((spanWhile wsChars ((cssCommentPhase buf l).2.drop 7)).1 ++ (q :: l4))) := by
              simp [List.append_assoc]
          _ = buf ++ l := by rw [hwp, htd, hcp]
  · rw [if_neg hImp] at h
    by_cases hUrl : ("url(".toList).isPrefixOf ((cssCommentPhase buf l).2) = true
    · rw [if_pos hUrl] at h
      have htd : (cssCommentPhase buf l).2.take 4 ++ (cssCommentPhase buf l).2.drop 4 =
          (cssCommentPhase buf l).2 := List.take_append_drop _ _
      have hwp := spanWhile_partition wsChars ((cssCommentPhase buf l).2.drop 4)
      cases hwq : (spanWhile wsChars ((cssCommentPhase buf l).2.drop 4)).2 with
      | nil =>
        rw [hwq] at h
        exact absurd h (by simp)
      | cons q l4 =>
        rw [hwq] at hwp
        rw [hwq] at h
        simp only [] at h
        split at h
        · have hr := cssQuotedUrl_partition q l4
          simp only [Except.ok.injEq, Prod.mk.injEq] at h
          obtain ⟨h1, h2, h3⟩ := h
          subst h1; subst h2; subst h3
          rw [joinC_pair]
          simp only [List.append_nil, List.nil_append]
          calc ((cssCommentPhase buf l).1 ++ (cssCommentPhase buf l).2.take 4 ++
                  (spanWhile wsChars ((cssCommentPhase buf l).2.drop 4)).1 ++
                  q :: (cssQuotedUrl q l4).1) ++ (cssQuotedUrl q l4).2.2
              = (cssCommentPhase buf l).1 ++ ((cssCommentPhase buf l).2.take 4 ++
                  ((spanWhile wsChars ((cssCommentPhase buf l).2.drop 4)).1 ++
                  q :: ((cssQuotedUrl q l4).1 ++ (cssQuotedUrl q l4).2.2))) := by
                simp [List.append_assoc]
            _ = buf ++ l := by rw [hr, hwp, htd, hcp]
        · have hsk := skipUntilEsc_partition [')', '\n', '\r'] backslashChr (q :: l4) false
          simp only [Except.ok.injEq, Prod.mk.injEq] at h
          obtain ⟨h1, h2, h3⟩ := h
          subst h1; subst h2; subst h3
          rw [joinC_pair]
          simp only [List.append_nil, List.nil_append]
          calc ((cssCommentPhase buf l).1 ++ (cssCommentPhase buf l).2.take 4 ++
                  (spanWhile wsChars ((cssCommentPhase buf l).2.drop 4)).1 ++
                  (skipUntilEsc [')', '\n', '\r'] backslashChr (q :: l4) false).1) ++
                  (skipUntilEsc [')', '\n', '\r'] backslashChr (q :: l4) false).2.2
              = (cssCommentPhase buf l).1 ++ ((cssCommentPhase buf l).2.take 4 ++
                  ((spanWhile wsChars ((cssCommentPhase buf l).2.drop 4)).1 ++
                  ((skipUntilEsc [')', '\n', '\r'] backslashChr (q :: l4) false).1 ++
                   (skipUntilEsc [')', '\n', '\r'] backslashChr (q :: l4) false).2.2))) := by
                simp [List.append_assoc]
            _ = buf ++ l := by rw [hsk, hwp, htd, hcp]
    · rw [if_neg hUrl] at h
      cases hc2 : (cssCommentPhase buf l).2 with
      | nil =>
        rw [hc2] at h
        simp only [] at h
        simp only [Except.ok.injEq, Prod.mk.injEq] at h
        obtain ⟨h1, h2, h3⟩ := h
        subst h1; subst h2; subst h3
        simp only [joinC, List.map_nil, List.flatten_nil, List.nil_append, List.append_nil]
        rw [← hcp, hc2]
        simp
      | cons c rest =>
        rw [hc2] at h
        simp only [] at h
        simp only [Except.ok.injEq, Prod.mk.injEq] at h
        obtain ⟨h1, h2, h3⟩ := h
        subst h1; subst h2; subst h3
        simp only [joinC, List.map_nil, List.flatten_nil, List.nil_append]
        rw [← hcp, hc2]
        simp

/-- The CSS parse loop partition: a successful parse reassembles the
already-emitted data, the buffer and the rest. -/
theorem cssParseLoop_partition :
    ∀ (fuel : Nat) (base : List CElem) (buf l : List Char) (elems : List CElem),
      cssParseLoop fuel base buf l = .ok elems →
      joinC elems = joinC base ++ buf ++ l := by
  intro fuel
  induction fuel with
  | zero =>
    intro base buf l elems h
    simp only [cssParseLoop] at h
    injection h with h1
    subst h1
    simp [joinC_append, joinC, cssUnknown, List.append_assoc]
  | succ fuel ih =>
    intro base buf l elems h
    match l with
    | [] =>
      simp only [cssParseLoop] at h
      injection h with h1
      subst h1
      simp [joinC_append, joinC, cssUnknown]
    | c :: rest =>
      simp only [cssParseLoop] at h
      cases hs : cssStep buf (c :: rest) with
      | error e => rw [hs] at h; exact absurd h (by simp)
      | ok r =>
        rw [hs] at h
        have hstep := cssStep_partition buf (c :: rest) r.1 r.2.1 r.2.2 (by rw [hs])
        have := ih (base ++ r.1) r.2.1 r.2.2 elems h
        rw [this, joinC_append]
        have hstep2 : joinC r.1 ++ (r.2.1 ++ r.2.2) = buf ++ c :: rest := by
          rw [← List.append_assoc]
          exact hstep
        rw [List.append_assoc, List.append_assoc (joinC base), hstep2]
        simp [List.append_assoc]

/-- A successful CSS parse partitions the document. -/
theorem cssParse_partition (s : String) (elems : List CElem)
    (h : cssParse s = .ok elems) : joinC elems = s.toList := by
  have := cssParseLoop_partition (s.toList.length + 2) [] [] s.toList elems h
  simpa [joinC] using this

/-- C5 helper, CSS half: a completed no-op rewrite of a CSS document
is the identity. -/
theorem cssReplaceUrls_noop (uj : String → String → String) (base : String)
    (esc : CSSEscape) (s out : String)
    (h : cssReplaceUrls uj base esc noopReplacer s = .ok out) : out = s := by
  unfold cssReplaceUrls at h
  cases hp : cssParse s with
  | error e => rw [hp] at h; exact absurd h (by simp)
  | ok elems =>
    rw [hp] at h
    injection h with h1
    simp only [noopReplacer, ite_self] at h1
    rw [foldl_append_chunks (fun e => e.data.toList) elems []] at h1
    rw [← h1, List.nil_append]
    have := cssParse_partition s elems hp
    rw [← joinC, this]
    exact strMk_toList s

/-- Appending HTML element lists concatenates their data. -/
theorem joinH_append (a b : List HElem) : joinH (a ++ b) = joinH a ++ joinH b := by
  simp [joinH]

/-- The data of an appended singleton. -/
theorem joinH_one (a : List HElem) (e : HElem) :
    joinH (a ++ [e]) = joinH a ++ e.data.toList := by
  simp [joinH]

/-- One attribute step only moves characters. -/
theorem tagAttrStep_partition (tagName : List Char) (acc : List HElem)
    (attrs : List (String × Nat)) (l : List Char)
    (r : (List HElem × List Char) ⊕ (List HElem × List (String × Nat) × List Char))
    (h : tagAttrStep tagName acc attrs l = .ok r) :
    attrStepJoin r = joinH acc ++ l := by
  have hwp := spanWhile_partition wsChars l
  unfold tagAttrStep at h
  simp only [] at h
  rcases hw : spanWhile wsChars l with ⟨w1, w2⟩
  rw [hw] at hwp h
  simp only [] at hwp h
  cases w2 with
  | nil =>
    simp only [] at h
    injection h with h1
    subst h1
    simp only [attrStepJoin, joinH_one, tagOpenEndElem]
    simp only [List.append_nil] at hwp ⊢
    rw [show (String.mk w1).toList = w1 from rfl, hwp]
  | cons c rest =>
    simp only [] at h
    split at h
    · rcases hsp : spanWhile ['/', '>'] (c :: rest) with ⟨s1, s2⟩
      have hspp := spanWhile_partition ['/', '>'] (c :: rest)
      rw [hsp] at hspp h
      simp only [] at hspp h
      split at h
      · injection h with h1
        subst h1
        simp only [attrStepJoin, joinH_one, tagOpenEndElem]
        rw [show (String.mk (w1 ++ s1)).toList = w1 ++ s1 from rfl]
        rw [List.append_assoc, List.append_assoc, hspp, hwp]
      · exact absurd h (by simp)
    · rcases han : spanUntil attrNameStops (c :: rest) with ⟨a1, a2⟩
      have hanp := spanUntil_partition attrNameStops (c :: rest)
      rw [han] at hanp h
      simp only [] at hanp h
      cases a2 with
      | nil =>
        simp only [] at h
        injection h with h1
        subst h1
        simp only [attrStepJoin]
        simp only [List.append_nil] at hanp
        rw [← hwp]
        simp [joinH, unknownElem, attrBeginElem, hanp, List.append_assoc]
      | cons c3 l3 =>
        simp only [] at h
        split at h
        · rename_i hc3
          subst hc3
          cases l3 with
          | nil => exact absurd h (by simp)
          | cons q l4 =>
            simp only [] at h
            split at h
            · rcases hv : spanUntil [q] l4 with ⟨v1, v2⟩
              have hvp := spanUntil_partition [q] l4
              rw [hv] at hvp h
              simp only [] at hvp h
              cases v2 with
              | nil =>
                simp only [] at h
                injection h with h1
                subst h1
                simp only [attrStepJoin]
                simp only [List.append_nil] at hvp
                rw [← hwp, ← hanp]
                simp [joinH, unknownElem, attrBeginElem, attrValueElem, hvp,
                  List.append_assoc]
              | cons c2 r2 =>
                simp only [] at h
                injection h with h1
                subst h1
                simp only [attrStepJoin]
                rw [← hwp, ← hanp, ← hvp]
                simp [joinH, unknownElem, attrBeginElem, attrValueElem,
                  List.append_assoc]
            · rcases hv : spanUntil attrValueStops (q :: l4) with ⟨v1, v2⟩
              have hvp := spanUntil_partition attrValueStops (q :: l4)
              rw [hv] at hvp h
              simp only [] at hvp h
              injection h with h1
              subst h1
              simp only [attrStepJoin]
              rw [← hwp, ← hanp, ← hvp]
              simp [joinH, unknownElem, attrBeginElem, attrValueElem,
                List.append_assoc]
        · injection h with h1
          subst h1
          simp only [attrStepJoin]
          rw [← hwp, ← hanp]
          simp [joinH, unknownElem, attrBeginElem, List.append_assoc]

/-- The attribute loop only moves characters. -/
theorem tagAttrLoop_partition (tagName : List Char) :
    ∀ (fuel : Nat) (acc : List HElem) (attrs : List (String × Nat))
      (l : List Char) (acc2 : List HElem) (rest : List Char),
      tagAttrLoop tagName fuel acc attrs l = .ok (acc2, rest) →
      joinH acc2 ++ rest = joinH acc ++ l := by
  intro fuel
  induction fuel with
  | zero =>
    intro acc attrs l acc2 rest h
    simp only [tagAttrLoop] at h
    injection h with h1
    injection h1 with h1 h2
    subst h1
    subst h2
    simp [joinH_one, unknownElem]
  | succ fuel ih =>
    intro acc attrs l acc2 rest h
    simp only [tagAttrLoop] at h
    cases hs : tagAttrStep tagName acc attrs l with
    | error e => rw [hs] at h; exact absurd h (by simp)
    | ok r =>
      rw [hs] at h
      have hstep := tagAttrStep_partition tagName acc attrs l r hs
      cases r with
      | inl rr =>
        simp only [] at h
        injection h with h1
        subst h1
        simpa [attrStepJoin] using hstep
      | inr c =>
        simp only [] at h
        have := ih c.1 c.2.1 c.2.2 acc2 rest h
        rw [this]
        simpa [attrStepJoin] using hstep

/-- The rawtext scan invariant: on a hit, the content and the rest
reassemble the already-consumed characters and the input. -/
theorem rawtextScanAux_partition (pat : List Char) :
    ∀ (fuel : Nat) (con l content rest : List Char),
      rawtextScanAux pat fuel con l = .ok (some (content, rest)) →
      content ++ rest = con.reverse ++ l := by
  intro fuel
  induction fuel with
  | zero =>
    intro con l content rest h
    simp only [rawtextScanAux] at h
    exact absurd h (by simp)
  | succ fuel ih =>
    intro con l content rest h
    simp only [rawtextScanAux] at h
    cases l with
    | nil => exact absurd h (by simp)
    | cons c rest0 =>
      simp only [] at h
      by_cases hp : pat.isPrefixOf (c :: rest0) = true
      · rw [if_pos hp] at h
        cases hd : (c :: rest0).drop pat.length with
        | nil =>
          rw [hd] at h
          exact absurd h (by simp)
        | cons d tl =>
          rw [hd] at h
          simp only [] at h
          by_cases hdel : d ∈ rawtextDelims
          · rw [if_pos hdel] at h
            injection h with h1
            injection h1 with h1
            injection h1 with h1 h2
            subst h1
            subst h2
            rfl
          · rw [if_neg hdel] at h
            have := ih _ _ content rest h
            rw [this]
            simp [List.append_assoc]
      · rw [if_neg hp] at h
        have := ih _ _ content rest h
        rw [this]
        simp [List.append_assoc]

/-- The rawtext scan partition. -/
theorem rawtextScan_partition (pat l content rest : List Char)
    (h : rawtextScan pat l = .ok (some (content, rest))) :
    content ++ rest = l := by
  have := rawtextScanAux_partition pat (l.length + 1) [] l content rest h
  simpa using this

/-- The comment phase of the HTML loop only moves characters from the
rest into the buffer. -/
theorem htmlCommentPhase_partition (buf l : List Char) :
    (htmlCommentPhase buf l).1 ++ (htmlCommentPhase buf l).2 = buf ++ l := by
  unfold htmlCommentPhase
  by_cases h1 : ("<!--".toList).isPrefixOf l = true
  · rw [if_pos h1]
    by_cases h2 : ("[if IE ".toList).isPrefixOf (l.drop 4) = true
    · rw [if_pos h2]
      simp only []
      rw [List.append_assoc, List.append_assoc, List.take_append_drop,
        List.take_append_drop]
    · rw [if_neg h2]
      simp only []
      have := scanComment_partition (l.drop 4)
      rw [List.append_assoc, List.append_assoc, this, List.take_append_drop]
  · rw [if_neg h1]

/-- One HTML step only moves characters. -/
theorem htmlStep_partition (acc : List HElem) (buf l : List Char)
    (acc2 : List HElem) (buf2 l2 : List Char)
    (h : htmlStep acc buf l = .ok (acc2, buf2, l2)) :
    joinH acc2 ++ buf2 ++ l2 = joinH acc ++ buf ++ l := by
  have hcp := htmlCommentPhase_partition buf l
  unfold htmlStep at h
  simp only [] at h
  cases hc2 : (htmlCommentPhase buf l).2 with
  | nil =>
    rw [hc2] at hcp h
    simp only [] at h
    simp only [Except.ok.injEq, Prod.mk.injEq] at h
    obtain ⟨h1, h2, h3⟩ := h
    subst h1; subst h2; subst h3
    simp only [List.append_nil] at hcp ⊢
    rw [hcp]
    simp [List.append_assoc]
  | cons c l2x =>
    rw [hc2] at hcp h
    simp only [] at h
    split at h
    · rename_i hlt
      subst hlt
      cases l2x with
      | nil =>
        simp only [] at h
        simp only [Except.ok.injEq, Prod.mk.injEq] at h
        obtain ⟨h1, h2, h3⟩ := h
        subst h1; subst h2; subst h3
        simp only [List.append_nil]
        conv_rhs => rw [List.append_assoc, ← hcp]
      | cons c2 l3 =>
        simp only [] at h
        split at h
        · rcases hsp : spanUntil ['>'] (c2 :: l3) with ⟨s1, s2⟩
          have hspp := spanUntil_partition ['>'] (c2 :: l3)
          rw [hsp] at hspp h
          simp only [] at hspp h
          simp only [Except.ok.injEq, Prod.mk.injEq] at h
          obtain ⟨h1, h2, h3⟩ := h
          subst h1; subst h2; subst h3
          conv_rhs => rw [List.append_assoc, ← hcp]
          simp [List.append_assoc, hspp]
        · split at h
          · rcases htn : spanUntil tagStops (c2 :: l3) with ⟨t1, t2⟩
            have htnp := spanUntil_partition tagStops (c2 :: l3)
            rw [htn] at htnp h
            simp only [] at htnp h
            cases hta : tagAttrLoop t1 (t2.length + 1)
                (acc ++ [unknownElem ((htmlCommentPhase buf l).1 ++ ['<']), tagOpenElem t1])
                [] t2 with
            | error e => rw [hta] at h; exact absurd h (by simp)
            | ok r2 =>
              rw [hta] at h
              simp only [] at h
              have hloop := tagAttrLoop_partition t1 (t2.length + 1)
                (acc ++ [unknownElem ((htmlCommentPhase buf l).1 ++ ['<']), tagOpenElem t1])
                [] t2 r2.1 r2.2 (by rw [hta])
              split at h
              · cases hrt : rawtextScan ('<' :: '/' :: t1) r2.2 with
                | error e => rw [hrt] at h; exact absurd h (by simp)
                | ok o =>
                  rw [hrt] at h
                  cases o with
                  | none =>
                    simp only [] at h
                    simp only [Except.ok.injEq, Prod.mk.injEq] at h
                    obtain ⟨h1, h2, h3⟩ := h
                    subst h1; subst h2; subst h3
                    simp only [List.append_nil]
                    have h5 : joinH (r2.1 ++ [unknownElem []]) = joinH r2.1 := by
                      simp [joinH, unknownElem]
                    rw [h5, hloop]
                    conv_rhs => rw [List.append_assoc, ← hcp]
                    simp [joinH, unknownElem, tagOpenElem, htnp, List.append_assoc]
                  | some rt =>
                    simp only [] at h
                    simp only [Except.ok.injEq, Prod.mk.injEq] at h
                    obtain ⟨h1, h2, h3⟩ := h
                    subst h1; subst h2; subst h3
                    simp only [List.append_nil]
                    have hraw := rawtextScan_partition ('<' :: '/' :: t1) r2.2 rt.1 rt.2
                      (by rw [hrt])
                    have h5 : joinH (r2.1 ++ [unknownElem []] ++ [rawtextElem t1 rt.1]) =
                        joinH r2.1 ++ rt.1 := by
                      simp [joinH, unknownElem, rawtextElem]
                    rw [h5, List.append_assoc, hraw, hloop]
                    conv_rhs => rw [List.append_assoc, ← hcp]
                    simp [joinH, unknownElem, tagOpenElem, htnp, List.append_assoc]
              · simp only [Except.ok.injEq, Prod.mk.injEq] at h
                obtain ⟨h1, h2, h3⟩ := h
                subst h1; subst h2; subst h3
                simp only [List.append_nil]
                rw [hloop]
                conv_rhs => rw [List.append_assoc, ← hcp]
                simp [joinH, unknownElem, tagOpenElem, htnp, List.append_assoc]
          · simp only [Except.ok.injEq, Prod.mk.injEq] at h
            obtain ⟨h1, h2, h3⟩ := h
            subst h1; subst h2; subst h3
            conv_rhs => rw [List.append_assoc, ← hcp]
            simp [List.append_assoc]
    · simp only [Except.ok.injEq, Prod.mk.injEq] at h
      obtain ⟨h1, h2, h3⟩ := h
      subst h1; subst h2; subst h3
      conv_rhs => rw [List.append_assoc, ← hcp]
      simp [List.append_assoc]

/-- The HTML parse loop partition. -/
theorem htmlParseLoop_partition :
    ∀ (fuel : Nat) (acc : List HElem) (buf l : List Char) (elems : List HElem),
      htmlParseLoop fuel acc buf l = .ok elems →
      joinH elems = joinH acc ++ buf ++ l := by
  intro fuel
  induction fuel with
  | zero =>
    intro acc buf l elems h
    simp only [htmlParseLoop] at h
    injection h with h1
    subst h1
    simp [joinH_one, unknownElem, List.append_assoc]
  | succ fuel ih =>
    intro acc buf l elems h
    match l with
    | [] =>
      simp only [htmlParseLoop] at h
      injection h with h1
      subst h1
      simp [joinH_one, unknownElem]
    | c :: rest =>
      simp only [htmlParseLoop] at h
      cases hs : htmlStep acc buf (c :: rest) with
      | error e => rw [hs] at h; exact absurd h (by simp)
      | ok r =>
        rw [hs] at h
        have hstep := htmlStep_partition acc buf (c :: rest) r.1 r.2.1 r.2.2 (by rw [hs])
        have := ih r.1 r.2.1 r.2.2 elems h
        rw [this]
        exact hstep

/-- A successful HTML tokenization partitions the document. -/
theorem htmlTokenize_partition (s : String) (elems : List HElem)
    (h : htmlTokenize s = .ok elems) : joinH elems = s.toList := by
  have := htmlParseLoop_partition (s.toList.length + 2) [] [] s.toList elems h
  simpa [joinH] using this

/-- Dropping to a cons determines the element at the index. -/
theorem get?_of_drop_cons {α : Type} :
    ∀ (i : Nat) (l : List α) (e : α) (t : List α),
      l.drop i = e :: t → l.get? i = some e := by
  intro i
  induction i with
  | zero => intro l e t h; simp at h; simp [h]
  | succ i ih =>
    intro l e t h
    cases l with
    | nil => simp at h
    | cons x l2 =>
      simp only [List.drop_succ_cons] at h
      simpa using ih l2 e t h

/-- Dropping one further past a cons. -/
theorem drop_succ_of_drop_cons {α : Type} :
    ∀ (i : Nat) (l : List α) (e : α) (t : List α),
      l.drop i = e :: t → l.drop (i + 1) = t := by
  intro i
  induction i with
  | zero => intro l e t h; simp at h; simp [h]
  | succ i ih =>
    intro l e t h
    cases l with
    | nil => simp at h
    | cons x l2 =>
      simp only [List.drop_succ_cons] at h
      simpa using ih l2 e t h

/-- The link handler only yields plain urls. -/
theorem linkTagItems_refs (elems : List HElem) (e : HElem) (items : List UrlItem)
    (h : linkTagItems elems e = .ok items) :
    ∀ it ∈ items, itemRef elems it := by
  unfold linkTagItems at h
  split at h
  · injection h with h1; subst h1; intro it hit; simp at hit
  · simp only [] at h
    split at h
    · injection h with h1; subst h1; intro it hit; simp at hit
    · split at h
      · exact absurd h (by simp)
      · injection h with h1
        subst h1
        intro it hit
        simp at hit
        subst hit
        trivial

/-- The form handler only yields plain urls. -/
theorem formTagItems_refs (elems : List HElem) (e : HElem) (items : List UrlItem)
    (h : formTagItems elems e = .ok items) :
    ∀ it ∈ items, itemRef elems it := by
  unfold formTagItems at h
  split at h
  · injection h with h1; subst h1; intro it hit; simp at hit
  · simp only [] at h
    split at h
    · injection h with h1; subst h1; intro it hit; simp at hit
    · injection h with h1
      subst h1
      intro it hit
      simp at hit
      subst hit
      trivial

/-- The meta handler yields nothing (or crashes). -/
theorem metaTagItems_refs (elems : List HElem) (e : HElem) (items : List UrlItem)
    (h : metaTagItems elems e = .ok items) :
    ∀ it ∈ items, itemRef elems it := by
  unfold metaTagItems at h
  simp only [] at h
  split at h
  · injection h with h1; subst h1; intro it hit; simp at hit
  · split at h
    · split at h
      · exact absurd h (by simp)
      · injection h with h1; subst h1; intro it hit; simp at hit
    · injection h with h1; subst h1; intro it hit; simp at hit

/-- The items produced for one element point back at tokens
faithfully. -/
theorem itemsOfElem_refs (uj : String → String → String) (docBase : String)
    (elems : List HElem) (idx : Nat) (e : HElem)
    (hget : elems.get? idx = some e) (items : List UrlItem)
    (h : itemsOfElem uj docBase elems idx e = .ok items) :
    ∀ it ∈ items, itemRef elems it := by
  unfold itemsOfElem at h
  simp only [] at h
  split at h
  · -- attr-value
    rename_i htyp
    have hstyleRef : ∀ it ∈ (if e.attr_name = "style" then
        [UrlItem.styleAttrCss idx e.value] else []), itemRef elems it := by
      split
      · rename_i hattr
        intro it hit
        simp at hit
        subst hit
        exact ⟨e, hget, htyp, hattr, rfl⟩
      · intro it hit
        simp at hit
    split at h
    · injection h with h1
      subst h1
      exact hstyleRef
    · split at h
      · injection h with h1
        subst h1
        intro it hit
        rw [List.mem_append] at hit
        cases hit with
        | inl hl => exact hstyleRef it hl
        | inr hr =>
          simp at hr
          subst hr
          trivial
      · injection h with h1
        subst h1
        exact hstyleRef
  · split at h
    · -- tag-open-end
      split at h
      · injection h with h1; subst h1; intro it hit; simp at hit
      · split at h
        · exact linkTagItems_refs elems e items h
        · split at h
          · exact formTagItems_refs elems e items h
          · split at h
            · exact metaTagItems_refs elems e items h
            · injection h with h1; subst h1; intro it hit; simp at hit
    · split at h
      · -- tag-rawtext
        split at h
        · injection h with h1; subst h1; intro it hit; simp at hit
        · split at h
          · injection h with h1
            subst h1
            intro it hit
            simp at hit
            subst hit
            exact ⟨e, hget, rfl⟩
          · injection h with h1; subst h1; intro it hit; simp at hit
      · injection h with h1; subst h1; intro it hit; simp at hit

/-- The indexed traversal of `_iter_urls` produces faithful items. -/
theorem iterUrlsAux_refs (uj : String → String → String) (docBase : String)
    (elems : List HElem) :
    ∀ (rest : List HElem) (idx : Nat) (items : List UrlItem),
      elems.drop idx = rest →
      iterUrlsAux uj docBase elems idx rest = .ok items →
      ∀ it ∈ items, itemRef elems it := by
  intro rest
  induction rest with
  | nil =>
    intro idx items hdrop h
    simp only [iterUrlsAux] at h
    injection h with h1
    subst h1
    intro it hit
    simp at hit
  | cons e rest2 ih =>
    intro idx items hdrop h
    have hget := get?_of_drop_cons idx elems e rest2 hdrop
    have hdrop2 := drop_succ_of_drop_cons idx elems e rest2 hdrop
    simp only [iterUrlsAux] at h
    cases h1 : itemsOfElem uj docBase elems idx e with
    | error er => rw [h1] at h; exact absurd h (by simp)
    | ok items1 =>
      rw [h1] at h
      simp only [] at h
      cases h2 : iterUrlsAux uj docBase elems (idx + 1) rest2 with
      | error er => rw [h2] at h; exact absurd h (by simp)
      | ok items2 =>
        rw [h2] at h
        simp only [] at h
        injection h with h3
        subst h3
        intro it hit
        rw [List.mem_append] at hit
        cases hit with
        | inl hl => exact itemsOfElem_refs uj docBase elems idx e hget items1 h1 it hl
        | inr hr => exact ih (idx + 1) items2 hdrop2 h2 it hr

/-- `_iter_urls` produces faithful items. -/
theorem iterUrls_refs (uj : String → String → String) (elems : List HElem)
    (items : List UrlItem) (h : iterUrls uj elems = .ok items) :
    ∀ it ∈ items, itemRef elems it :=
  iterUrlsAux_refs uj (findBase elems) elems elems 0 items rfl h

/-- Re-setting the data an element already has changes nothing. -/
theorem modifyData_self :
    ∀ (l : List HElem) (i : Nat) (e : HElem), l.get? i = some e →
      modifyData l i e.data = l := by
  intro l
  induction l with
  | nil => intro i e h; simp at h
  | cons x l2 ih =>
    intro i e h
    cases i with
    | zero =>
      simp at h
      subst h
      rfl
    | succ i =>
      simp only [List.get?_cons_succ] at h
      simp [modifyData, ih i e h]

/-- Replacing a character that does not occur is the identity. -/
theorem strReplaceChar_id (s : String) (c : Char) (r : String)
    (h : strContainsChar s c = false) : strReplaceChar s c r = s := by
  have hmem : c ∉ s.toList := by
    simpa [strContainsChar] using h
  unfold strReplaceChar
  have : ∀ l : List Char, c ∉ l →
      l.foldr (fun x acc => if x = c then r.toList ++ acc else x :: acc) [] = l := by
    intro l
    induction l with
    | nil => intro; simp
    | cons x l2 ih =>
      intro hx
      simp only [List.mem_cons, not_or] at hx
      have hxc : ¬(x = c) := fun hh => hx.1 hh.symm
      simp only [List.foldr_cons]
      rw [if_neg hxc, ih hx.2]
  rw [this s.toList hmem]
  exact strMk_toList s

/-- Unpacking the per-token well-quotedness condition. -/
theorem styleElemOk_spec (e : HElem) (h : styleElemOk e = true)
    (h1 : e.typ = "attr-value") (h2 : e.attr_name = "style") :
    e.data = dq e.value ∧ strContainsChar e.value dquoteChr = false := by
  simpa [styleElemOk, h1, h2] using h

/-- Applying all items of a no-op rewrite over well-quoted tokens
changes nothing. -/
theorem applyItems_noop (uj : String → String → String) (base : String) :
    ∀ (items : List UrlItem) (elems elems2 : List HElem),
      (∀ it ∈ items, itemRef elems it) →
      styleElemsOk elems = true →
      applyItems uj base noopReplacer elems items = .ok elems2 →
      elems2 = elems := by
  intro items
  induction items with
  | nil =>
    intro elems elems2 href hstyle h
    simp only [applyItems] at h
    injection h with h1
    exact h1.symm
  | cons it rest2 ih =>
    intro elems elems2 href hstyle h
    simp only [applyItems] at h
    cases hap : applyItem uj base noopReplacer elems it with
    | error er => rw [hap] at h; exact absurd h (by simp)
    | ok elemsMid =>
      rw [hap] at h
      simp only [] at h
      have hmid : elemsMid = elems := by
        cases it with
        | plainUrl idx url =>
          simp [applyItem, noopReplacer] at hap
          exact hap.symm
        | styleAttrCss idx value =>
          obtain ⟨e, hget, htyp, hattr, hval⟩ :=
            href (UrlItem.styleAttrCss idx value) (by simp)
          have hall : ∀ x ∈ elems, styleElemOk x = true := by
            simpa [styleElemsOk, List.all_eq_true] using hstyle
          have hok := hall e (List.get?_mem hget)
          obtain ⟨hdata, hcont⟩ := styleElemOk_spec e hok htyp hattr
          simp only [applyItem] at hap
          cases hcss : cssReplaceUrls uj base .single noopReplacer value with
          | error er => rw [hcss] at hap; exact absurd hap (by simp)
          | ok css =>
            rw [hcss] at hap
            simp only [] at hap
            injection hap with hap1
            have hcssn := cssReplaceUrls_noop uj base .single value css hcss
            subst hcssn
            subst hap1
            have hq : dquoteEsc css = e.data := by
              rw [hdata, ← hval]
              unfold dquoteEsc
              rw [strReplaceChar_id e.value dquoteChr "&quot;" hcont]
            rw [hq]
            exact modifyData_self elems idx e hget
        | rawCss idx content =>
          obtain ⟨e, hget, hdata⟩ := href (UrlItem.rawCss idx content) (by simp)
          simp only [applyItem] at hap
          cases hcss : cssReplaceUrls uj base .double noopReplacer content with
          | error er => rw [hcss] at hap; exact absurd hap (by simp)
          | ok css =>
            rw [hcss] at hap
            simp only [] at hap
            injection hap with hap1
            have hcssn := cssReplaceUrls_noop uj base .double content css hcss
            subst hcssn
            subst hap1
            rw [← hdata]
            exact modifyData_self elems idx e hget
      rw [hmid] at h
      exact ih elems elems2 (fun it2 hit2 => href it2 (List.mem_cons_of_mem _ hit2))
        hstyle h

/-- C5 helper, HTML half: a completed no-op rewrite of an HTML
document whose style attributes are double-quoted without inner double
quotes is the identity. -/
theorem htmlReplaceUrls_noop (uj : String → String → String) (base : String)
    (s : String) (elems : List HElem) (out : String)
    (htok : htmlTokenize s = .ok elems) (hstyle : styleElemsOk elems = true)
    (h : htmlReplaceUrls uj base noopReplacer s = .ok out) : out = s := by
  unfold htmlReplaceUrls at h
  rw [htok] at h
  simp only [] at h
  cases hit : iterUrls uj elems with
  | error er => rw [hit] at h; exact absurd h (by simp)
  | ok items =>
    rw [hit] at h
    simp only [] at h
    cases hap : applyItems uj base noopReplacer elems items with
    | error er => rw [hap] at h; exact absurd h (by simp)
    | ok elems2 =>
      rw [hap] at h
      simp only [] at h
      injection h with h1
      have hrefs := iterUrls_refs uj elems items hit
      have heq := applyItems_noop uj base items elems elems2 hrefs hstyle hap
      rw [heq] at h1
      rw [← h1, htmlTokenize_partition s elems htok]
      exact strMk_toList s

/-- A document on which the claimed identity fails without any url
being rewritten: the single-quoted style attribute comes back
double-quoted. -/
theorem c5_noop_requote_counterexample :
    htmlReplaceUrls (fun _ u => u) "" noopReplacer c5CeDoc = .ok c5CeOut ∧
    c5CeOut ≠ c5CeDoc := by
  constructor
  · decide
  · decide

/-- C5 (amended): with the no-op replacer, a completed
`CSSParser.replace_urls` reproduces the CSS document byte-for-byte;
a completed `HTMLParser.replace_urls` reproduces the HTML document
byte-for-byte provided every style attribute token is already
double-quoted with no inner double quote (style attribute values are
unconditionally re-emitted double-quoted, and several malformed
documents raise instead of completing). -/
theorem c5_noop_rewrite_identity :
    (∀ (uj : String → String → String) (base : String) (esc : CSSEscape)
        (s out : String),
        cssReplaceUrls uj base esc noopReplacer s = .ok out → out = s) ∧
    (∀ (uj : String → String → String) (base : String) (s : String)
        (elems : List HElem) (out : String),
        htmlTokenize s = .ok elems → styleElemsOk elems = true →
        htmlReplaceUrls uj base noopReplacer s = .ok out → out = s) :=
  ⟨cssReplaceUrls_noop, htmlReplaceUrls_noop⟩

/-- The round-trip identity holds on concrete CSS and HTML witness
documents. -/
theorem c5_noop_rewrite_identity_witness :
    (cssReplaceUrls (fun _ u => u) "b" CSSEscape.double noopReplacer c5WCss =
        .ok c5WCssOut ∧ c5WCssOut = c5WCss) ∧
    (htmlTokenize c5WDoc = .ok c5WElems ∧ styleElemsOk c5WElems = true ∧
      htmlReplaceUrls (fun _ u => u) "w" noopReplacer c5WDoc = .ok c5WOut ∧
      c5WOut = c5WDoc) :=
  ⟨⟨by decide,
    c5_noop_rewrite_identity.1 (fun _ u => u) "b" CSSEscape.double c5WCss c5WCssOut
      (by decide)⟩,
   ⟨by decide, by decide, by decide,
    c5_noop_rewrite_identity.2 (fun _ u => u) "w" c5WDoc c5WElems c5WOut
      (by decide) (by decide) (by decide)⟩⟩

end Track
